import Mathlib

/-!
A verification development for the telemetry-gateway sources: shallow
embeddings of the pipeline components (envelope framing, bounded queue,
source limiter, bounded forwarder, logfmt parsing and validation, JSON
metrics parsing) and theorems about the properties claimed for them.

Machine integers are modelled as `Nat`/`Int` with explicit modular
reduction where the C++ performs a narrowing cast; `double` token counts
are modelled as `ℚ` (the operations involved — addition, multiplication
by a small constant, `min` — are exact at every value the theorems
touch); byte values are `Fin 256`.
-/

namespace Gateway

/-- A byte value, as carried by `std::span<const std::byte>`. -/
abbrev Byte := Fin 256

/-! ## TB-2: envelope framing (`src/parse_envelope.cpp`)

The implementation file `src/parse_envelope.cpp` begins with a size-cap
branch `if (payload.size() > kMaxDatagramBytes) return DropReason::PayloadTooLarge;`
although its own header `include/gateway/parse_envelope.hpp` declares
`DropReason` with only the three framing enumerators and declares no
`kMaxDatagramBytes` (no source file under the tree declares either name,
so the translation unit does not compile against its header).  We embed
the `.cpp` as written, with a fourth constructor for the enumerator it
references and the value 1500 that its adjacent comment (`size > 1500`)
gives the undeclared constant. -/

/-- The drop reasons referenced by `src/parse_envelope.cpp` (the header
declares only the last three; `payloadTooLarge` is the undeclared
enumerator the `.cpp` returns). -/
inductive DropReason where
  | payloadTooLarge
  | payloadTooSmall
  | lengthMismatch
  | trailingJunk
deriving DecidableEq, Repr

/-- The undeclared constant referenced by `src/parse_envelope.cpp`; its
value is taken from the comment `size > 1500 -> PayloadTooLarge` next to
its only use. -/
def kMaxDatagramBytes : Nat := 1500

/-- Embedding of `gateway::parse_envelope` as written in
`src/parse_envelope.cpp` (including its size-cap branch). -/
def parse_envelope (payload : List Byte) : Except DropReason (List Byte) :=
  if payload.length > kMaxDatagramBytes then
    .error .payloadTooLarge
  else if payload.length < 2 then
    .error .payloadTooSmall
  else
    let b0 : Nat := (payload.getD 0 0).val
    let b1 : Nat := (payload.getD 1 0).val
    let claimed_len : Nat := (b0 <<< 8) ||| b1
    let expected_total : Nat := 2 + claimed_len
    if expected_total > payload.length then
      .error .lengthMismatch
    else if expected_total < payload.length then
      .error .trailingJunk
    else
      .ok ((payload.drop 2).take claimed_len)

/-- The drop reasons of the header `include/gateway/parse_envelope.hpp`
and of spec §4.4. -/
inductive SpecDropReason where
  | payloadTooSmall
  | lengthMismatch
  | trailingJunk
deriving DecidableEq, Repr

/-- Modelled from the spec: `parse_envelope` as §4.4 describes it
("this stage enforces framing alone", DropReason ∈ {PayloadTooSmall,
LengthMismatch, TrailingJunk}), for comparison with the embedding of the
`.cpp` above. -/
def parse_envelope_spec (payload : List Byte) : Except SpecDropReason (List Byte) :=
  if payload.length < 2 then
    .error .payloadTooSmall
  else
    let declared : Nat := ((payload.getD 0 0).val <<< 8) ||| (payload.getD 1 0).val
    if 2 + declared > payload.length then
      .error .lengthMismatch
    else if 2 + declared < payload.length then
      .error .trailingJunk
    else
      .ok ((payload.drop 2).take declared)

end Gateway

set_option maxRecDepth 10000

/-- C2: the claim says no size-cap check occurs in `parse_envelope` and no
result outside {PayloadTooSmall, LengthMismatch, TrailingJunk, body view}
is possible.  The `.cpp` as written refutes this: a 1501-byte payload is
answered with the (undeclared) fourth reason `PayloadTooLarge` before any
framing rule runs, while the spec's framing-only description of the same
input yields `TrailingJunk`. -/
theorem Gateway.C2_size_cap_divergence :
    Gateway.parse_envelope (List.replicate 1501 (0 : Gateway.Byte)) =
      .error .payloadTooLarge ∧
    Gateway.parse_envelope_spec (List.replicate 1501 (0 : Gateway.Byte)) =
      .error .trailingJunk := by
  constructor <;> rfl

namespace Gateway

/-! ## BoundedQueue (`include/gateway/bounded_queue.hpp`)

A fixed-capacity ring buffer with drop-on-full.  `buffer` models the
`std::vector<T>` allocated at construction (default-filled), and
`head`/`tail`/`size`/`drop_count` the index fields.  The abstraction
`toList` reads the live window of the ring; the refinement theorems relate
a run of the ring to a run of the plain list queue the spec describes. -/

/-- Result of attempting to push to the queue. -/
inductive PushResult where
  | Ok
  | Dropped
deriving DecidableEq, Repr

/-- Embedding of the state of `gateway::BoundedQueue<T>`. -/
structure BoundedQueue (α : Type) where
  buffer : List α
  capacity : Nat
  head : Nat
  tail : Nat
  size : Nat
  drop_count : Nat
deriving DecidableEq, Repr

/-- The constructor `BoundedQueue(capacity)`: a default-filled buffer of
`capacity` slots, indices and counters zeroed. -/
def BoundedQueue.make (α : Type) [Inhabited α] (capacity : Nat) : BoundedQueue α :=
  ⟨List.replicate capacity default, capacity, 0, 0, 0, 0⟩

/-- Embedding of `BoundedQueue::try_push`. -/
def BoundedQueue.try_push (q : BoundedQueue α) (item : α) :
    PushResult × BoundedQueue α :=
  if q.size ≥ q.capacity then
    (.Dropped, { q with drop_count := q.drop_count + 1 })
  else
    (.Ok, { q with buffer := q.buffer.set q.tail item,
                   tail := (q.tail + 1) % q.capacity,
                   size := q.size + 1 })

/-- Embedding of `BoundedQueue::try_pop`. -/
def BoundedQueue.try_pop [Inhabited α] (q : BoundedQueue α) :
    Option α × BoundedQueue α :=
  if q.size = 0 then
    (none, q)
  else
    (some (q.buffer.getD q.head default),
     { q with head := (q.head + 1) % q.capacity,
              size := q.size - 1 })

/-- The live contents of the ring, oldest first. -/
def BoundedQueue.toList [Inhabited α] (q : BoundedQueue α) : List α :=
  (List.range q.size).map fun i => q.buffer.getD ((q.head + i) % q.capacity) default

/-- Representation invariant of a reachable ring state. -/
def BoundedQueue.Inv (q : BoundedQueue α) : Prop :=
  q.buffer.length = q.capacity ∧
  q.size ≤ q.capacity ∧
  (q.head < q.capacity ∨ (q.head = 0 ∧ q.capacity = 0)) ∧
  q.tail = (q.head + q.size) % q.capacity

instance (q : BoundedQueue α) : Decidable q.Inv := by
  unfold BoundedQueue.Inv; infer_instance

theorem BoundedQueue.inv_make (α : Type) [Inhabited α] (capacity : Nat) :
    (BoundedQueue.make α capacity).Inv := by
  refine ⟨List.length_replicate .., Nat.zero_le _, ?_, by simp [make]⟩
  rcases Nat.eq_zero_or_pos capacity with h | h
  · exact Or.inr ⟨rfl, h⟩
  · exact Or.inl h

theorem BoundedQueue.toList_length [Inhabited α] (q : BoundedQueue α) :
    q.toList.length = q.size := by
  simp [toList]

/-- `List.getD` after `List.set` at a different index. -/
theorem getD_set_ne (l : List α) (i j : Nat) (a d : α) (h : i ≠ j) :
    (l.set i a).getD j d = l.getD j d := by
  induction l generalizing i j with
  | nil => rfl
  | cons x xs ih =>
    cases i with
    | zero => cases j with
      | zero => exact absurd rfl h
      | succ j => rfl
    | succ i => cases j with
      | zero => rfl
      | succ j => exact ih i j (fun e => h (by rw [e]))

/-- `List.getD` after `List.set` at the written index (in range). -/
theorem getD_set_self (l : List α) (i : Nat) (a d : α) (h : i < l.length) :
    (l.set i a).getD i d = a := by
  induction l generalizing i with
  | nil => exact absurd h (by simp)
  | cons x xs ih =>
    cases i with
    | zero => rfl
    | succ i => exact ih i (Nat.lt_of_succ_lt_succ h)

/-- Offsets below the capacity are recovered from their ring indices. -/
theorem ring_index_inj {cap h0 i j : Nat} (hi : i < cap) (hj : j < cap)
    (e : (h0 + i) % cap = (h0 + j) % cap) : i = j := by
  have := Nat.ModEq.add_left_cancel' h0 (e : (h0 + i) ≡ (h0 + j) [MOD cap])
  rw [Nat.ModEq, Nat.mod_eq_of_lt hi, Nat.mod_eq_of_lt hj] at this
  exact this

/-- Pointwise-agreeing maps are equal. -/
theorem map_congr_mem {α β : Type} {f g : α → β} :
    ∀ {l : List α}, (∀ a ∈ l, f a = g a) → l.map f = l.map g := by
  intro l
  induction l with
  | nil => intro _; rfl
  | cons x xs ih =>
    intro h
    simp only [List.map_cons]
    rw [h x (List.mem_cons_self x xs), ih fun a ha => h a (List.mem_cons_of_mem x ha)]

theorem BoundedQueue.try_push_full {α : Type} {q : BoundedQueue α} (a : α)
    (h : q.capacity ≤ q.size) :
    q.try_push a = (.Dropped, { q with drop_count := q.drop_count + 1 }) := by
  simp [try_push, h]

theorem BoundedQueue.try_push_ok {α : Type} [Inhabited α] {q : BoundedQueue α} (a : α)
    (hInv : q.Inv) (h : q.size < q.capacity) :
    (q.try_push a).1 = .Ok ∧
    (q.try_push a).2.toList = q.toList ++ [a] ∧
    (q.try_push a).2.Inv ∧
    (q.try_push a).2.size = q.size + 1 ∧
    (q.try_push a).2.capacity = q.capacity ∧
    (q.try_push a).2.drop_count = q.drop_count := by
  obtain ⟨hlen, hsz, hhead, htail⟩ := hInv
  have hcap : 0 < q.capacity := Nat.lt_of_le_of_lt (Nat.zero_le _) h
  have hhd : q.head < q.capacity := by
    rcases hhead with h' | ⟨_, h0⟩
    · exact h'
    · omega
  have hnotfull : ¬ q.size ≥ q.capacity := Nat.not_le.mpr h
  have htl : q.tail < q.buffer.length := by
    rw [hlen, htail]; exact Nat.mod_lt _ hcap
  refine ⟨by simp [try_push, hnotfull], ?_, ?_, by simp [try_push, hnotfull],
    by simp [try_push, hnotfull], by simp [try_push, hnotfull]⟩
  · show BoundedQueue.toList ((q.try_push a).2) = _
    simp only [try_push, hnotfull, if_false]
    show ((List.range (q.size + 1)).map fun i =>
        (q.buffer.set q.tail a).getD ((q.head + i) % q.capacity) default) = _
    rw [List.range_succ, List.map_append]
    congr 1
    · apply map_congr_mem
      intro i hi
      have hi' : i < q.size := List.mem_range.mp hi
      apply getD_set_ne
      intro e
      have : i = q.size := by
        refine @ring_index_inj q.capacity q.head i q.size (Nat.lt_trans hi' h) h ?_
        rw [← e]
        exact htail
      omega
    · show [(q.buffer.set q.tail a).getD ((q.head + q.size) % q.capacity) default] = [a]
      rw [← htail, getD_set_self _ _ _ _ htl]
  · show BoundedQueue.Inv ((q.try_push a).2)
    simp only [try_push, hnotfull, if_false]
    refine ⟨by simpa using hlen, h, Or.inl hhd, ?_⟩
    show (q.tail + 1) % q.capacity = (q.head + (q.size + 1)) % q.capacity
    rw [htail, Nat.mod_add_mod, ← Nat.add_assoc]

theorem BoundedQueue.try_pop_empty {α : Type} [Inhabited α] {q : BoundedQueue α}
    (h : q.size = 0) : q.try_pop = (none, q) := by
  simp [try_pop, h]

theorem BoundedQueue.try_pop_ok {α : Type} [Inhabited α] {q : BoundedQueue α}
    (hInv : q.Inv) (h : 0 < q.size) :
    (q.try_pop).1 = q.toList.head? ∧
    (q.try_pop).2.toList = q.toList.tail ∧
    (q.try_pop).2.Inv ∧
    (q.try_pop).2.size = q.size - 1 ∧
    (q.try_pop).2.capacity = q.capacity ∧
    (q.try_pop).2.drop_count = q.drop_count := by
  obtain ⟨hlen, hsz, hhead, htail⟩ := hInv
  have hcap : 0 < q.capacity := Nat.lt_of_lt_of_le h hsz
  have hhd : q.head < q.capacity := by
    rcases hhead with h' | ⟨_, h0⟩
    · exact h'
    · omega
  obtain ⟨k, hk⟩ : ∃ k, q.size = k + 1 := ⟨q.size - 1, by omega⟩
  have hne : ¬ q.size = 0 := by omega
  have htolist : q.toList =
      (q.buffer.getD q.head default) ::
        ((List.range k).map fun i => q.buffer.getD ((q.head + (i + 1)) % q.capacity) default) := by
    show ((List.range q.size).map fun i =>
        q.buffer.getD ((q.head + i) % q.capacity) default) = _
    rw [hk, List.range_succ_eq_map, List.map_cons, List.map_map]
    congr 1
    rw [Nat.add_zero, Nat.mod_eq_of_lt hhd]
  refine ⟨?_, ?_, ?_, by simp [try_pop, hne], by simp [try_pop, hne],
    by simp [try_pop, hne]⟩
  · rw [htolist]
    simp [try_pop, hne]
  · show BoundedQueue.toList ((q.try_pop).2) = _
    simp only [try_pop, hne, if_false]
    rw [htolist]
    show ((List.range (q.size - 1)).map fun i =>
        q.buffer.getD (((q.head + 1) % q.capacity + i) % q.capacity) default) = _
    rw [hk]
    simp only [Nat.add_sub_cancel, List.tail_cons]
    apply map_congr_mem
    intro i _
    rw [Nat.mod_add_mod]
    congr 2
    omega
  · show BoundedQueue.Inv ((q.try_pop).2)
    simp only [try_pop, hne, if_false]
    refine ⟨hlen, Nat.le_trans (Nat.sub_le _ _) hsz, Or.inl (Nat.mod_lt _ hcap), ?_⟩
    show q.tail = ((q.head + 1) % q.capacity + (q.size - 1)) % q.capacity
    rw [htail, Nat.mod_add_mod]
    congr 1
    omega

/-- One operation on a queue: a push of a value, or a pop. -/
inductive QueueOp (α : Type) where
  | push (a : α)
  | pop
deriving DecidableEq, Repr

/-- The visible outcome of one queue operation. -/
inductive QueueOut (α : Type) where
  | pushed (r : PushResult)
  | popped (x : Option α)
deriving DecidableEq, Repr

/-- Run a sequence of operations on the ring, collecting each outcome. -/
def runQueue {α : Type} [Inhabited α] (q : BoundedQueue α) :
    List (QueueOp α) → BoundedQueue α × List (QueueOut α)
  | [] => (q, [])
  | .push a :: ops =>
    let r := q.try_push a
    let rest := runQueue r.2 ops
    (rest.1, .pushed r.1 :: rest.2)
  | .pop :: ops =>
    let r := q.try_pop
    let rest := runQueue r.2 ops
    (rest.1, .popped r.1 :: rest.2)

/-- Modelled from the spec (§4.1): the plain bounded FIFO list the ring is
supposed to implement — `try_push` appends unless `size` equals capacity,
in which case it drops and counts; `try_pop` takes the oldest item. -/
structure ListQueue (α : Type) where
  items : List α
  cap : Nat
  drops : Nat
deriving DecidableEq, Repr

/-- Run the same operations on the spec-level list queue. -/
def runListQueue {α : Type} (s : ListQueue α) :
    List (QueueOp α) → ListQueue α × List (QueueOut α)
  | [] => (s, [])
  | .push a :: ops =>
    if s.items.length = s.cap then
      let rest := runListQueue { s with drops := s.drops + 1 } ops
      (rest.1, .pushed .Dropped :: rest.2)
    else
      let rest := runListQueue { s with items := s.items ++ [a] } ops
      (rest.1, .pushed .Ok :: rest.2)
  | .pop :: ops =>
    match s.items with
    | [] =>
      let rest := runListQueue s ops
      (rest.1, .popped none :: rest.2)
    | x :: xs =>
      let rest := runListQueue { s with items := xs } ops
      (rest.1, .popped (some x) :: rest.2)

/-- The simulation relation between a ring state and a list-queue state. -/
def QueueRel {α : Type} [Inhabited α] (q : BoundedQueue α) (s : ListQueue α) : Prop :=
  q.Inv ∧ q.toList = s.items ∧ q.capacity = s.cap ∧ q.drop_count = s.drops

theorem runQueue_sim {α : Type} [Inhabited α] :
    ∀ (ops : List (QueueOp α)) (q : BoundedQueue α) (s : ListQueue α),
      QueueRel q s →
      QueueRel (runQueue q ops).1 (runListQueue s ops).1 ∧
      (runQueue q ops).2 = (runListQueue s ops).2 := by
  intro ops
  induction ops with
  | nil => intro q s hR; exact ⟨hR, rfl⟩
  | cons op ops ih =>
    intro q s hR
    obtain ⟨hInv, hitems, hcap, hdrops⟩ := hR
    have hsize : q.size = s.items.length := by
      rw [← hitems, BoundedQueue.toList_length]
    cases op with
    | push a =>
      by_cases hfull : s.items.length = s.cap
      · have hge : q.capacity ≤ q.size := by omega
        have hstep := BoundedQueue.try_push_full (q := q) a hge
        have hrel : QueueRel (q.try_push a).2 { s with drops := s.drops + 1 } := by
          rw [hstep]
          refine ⟨⟨hInv.1, hInv.2.1, hInv.2.2.1, hInv.2.2.2⟩, ?_, hcap, by simp [hdrops]⟩
          simpa [BoundedQueue.toList] using hitems
        have := ih (q.try_push a).2 _ hrel
        simp only [runQueue, runListQueue, hfull, if_true]
        exact ⟨this.1, by rw [this.2, hstep]⟩
      · have hlt : q.size < q.capacity := by
          have := hInv.2.1
          omega
        obtain ⟨hr, htl, hinv', hsz', hcap', hdc'⟩ :=
          BoundedQueue.try_push_ok (q := q) a hInv hlt
        have hrel : QueueRel (q.try_push a).2 { s with items := s.items ++ [a] } := by
          exact ⟨hinv', by rw [htl, hitems], by rw [hcap', hcap], by rw [hdc', hdrops]⟩
        have := ih (q.try_push a).2 _ hrel
        simp only [runQueue, runListQueue, hfull, if_false]
        exact ⟨this.1, by rw [this.2, hr]⟩
    | pop =>
      cases hx : s.items with
      | nil =>
        have hz : q.size = 0 := by rw [hsize, hx]; rfl
        have hstep := BoundedQueue.try_pop_empty (q := q) hz
        have := ih (q.try_pop).2 s (by rw [hstep]; exact ⟨hInv, hitems, hcap, hdrops⟩)
        simp only [runQueue, runListQueue, hx]
        refine ⟨this.1, ?_⟩
        rw [this.2, hstep]
      | cons x xs =>
        have hpos : 0 < q.size := by rw [hsize, hx]; simp
        obtain ⟨hr, htl, hinv', hsz', hcap', hdc'⟩ :=
          BoundedQueue.try_pop_ok (q := q) hInv hpos
        have hrel : QueueRel (q.try_pop).2 { s with items := xs } := by
          refine ⟨hinv', ?_, by rw [hcap', hcap], by rw [hdc', hdrops]⟩
          rw [htl, hitems, hx]; rfl
        have := ih (q.try_pop).2 _ hrel
        simp only [runQueue, runListQueue, hx]
        refine ⟨this.1, ?_⟩
        rw [this.2, hr, hitems, hx]
        rfl

/-- The spec-level queue never changes its capacity. -/
theorem runListQueue_cap {α : Type} :
    ∀ (ops : List (QueueOp α)) (s : ListQueue α),
      (runListQueue s ops).1.cap = s.cap := by
  intro ops
  induction ops with
  | nil => intro s; rfl
  | cons op ops ih =>
    intro s
    cases op with
    | push a =>
      by_cases hfull : s.items.length = s.cap
      · simpa [runListQueue, hfull] using ih _
      · simpa [runListQueue, hfull] using ih _
    | pop =>
      cases hx : s.items with
      | nil => simpa [runListQueue, hx] using ih s
      | cons x xs => simpa [runListQueue, hx] using ih _

end Gateway

/-- C6: for every sequence of `try_push`/`try_pop` operations on a
`BoundedQueue` of capacity `C`, the ring behaves exactly like the plain
bounded FIFO list: the collected push/pop outcomes coincide (so successful
pushes are popped in FIFO order through arbitrary index wraps, and a push
is `Dropped` exactly when the spec queue is at capacity), the ring's
contents equal the list, its size never exceeds `C`, and the cumulative
drop counters agree; moreover for any reachable state (any state
satisfying the representation invariant) `try_push` answers `Dropped` iff
`size = capacity`, incrementing `drop_count` exactly in that case. -/
theorem Gateway.C6_bounded_queue_fifo {α : Type} [Inhabited α]
    (cap : Nat) (ops : List (Gateway.QueueOp α)) :
    (Gateway.runQueue (Gateway.BoundedQueue.make α cap) ops).2 =
      (Gateway.runListQueue ⟨[], cap, 0⟩ ops).2 ∧
    (Gateway.runQueue (Gateway.BoundedQueue.make α cap) ops).1.toList =
      (Gateway.runListQueue ⟨[], cap, 0⟩ ops).1.items ∧
    (Gateway.runQueue (Gateway.BoundedQueue.make α cap) ops).1.size ≤ cap ∧
    (Gateway.runQueue (Gateway.BoundedQueue.make α cap) ops).1.drop_count =
      (Gateway.runListQueue ⟨[], cap, 0⟩ ops).1.drops ∧
    (∀ (q : Gateway.BoundedQueue α) (a : α), q.Inv →
      (((q.try_push a).1 = .Dropped ↔ q.size = q.capacity) ∧
       (q.try_push a).2.drop_count =
         (if q.size = q.capacity then q.drop_count + 1 else q.drop_count))) := by
  have hrel : Gateway.QueueRel (Gateway.BoundedQueue.make α cap) (⟨[], cap, 0⟩ : Gateway.ListQueue α) := by
    refine ⟨Gateway.BoundedQueue.inv_make α cap, ?_, rfl, rfl⟩
    simp [Gateway.BoundedQueue.toList, Gateway.BoundedQueue.make]
  obtain ⟨⟨hinv, hitems, hcap, hdrops⟩, houts⟩ := Gateway.runQueue_sim ops _ _ hrel
  have hcap' : (Gateway.runQueue (Gateway.BoundedQueue.make α cap) ops).1.capacity = cap :=
    hcap.trans (Gateway.runListQueue_cap ops _)
  refine ⟨houts, hitems, ?_, hdrops, ?_⟩
  · exact le_trans hinv.2.1 (le_of_eq hcap')
  · intro q a hq
    by_cases hfull : q.size = q.capacity
    · have := Gateway.BoundedQueue.try_push_full (q := q) a (le_of_eq hfull.symm)
      rw [this]
      simp [hfull]
    · have hlt : q.size < q.capacity := Nat.lt_of_le_of_ne hq.2.1 hfull
      obtain ⟨hr, _, _, _, _, hdc⟩ := Gateway.BoundedQueue.try_push_ok (q := q) a hq hlt
      rw [hr, hdc]
      simp [hfull]

/-- C6 witness: the packaged per-step clause applied at a concrete state. -/
theorem Gateway.C6_bounded_queue_fifo_witness :
    (Gateway.BoundedQueue.make Nat 1).Inv ∧
    ((((Gateway.BoundedQueue.make Nat 1).try_push 7).1 = .Dropped ↔
        (Gateway.BoundedQueue.make Nat 1).size = (Gateway.BoundedQueue.make Nat 1).capacity) ∧
      ((Gateway.BoundedQueue.make Nat 1).try_push 7).2.drop_count =
        (if (Gateway.BoundedQueue.make Nat 1).size = (Gateway.BoundedQueue.make Nat 1).capacity then
          (Gateway.BoundedQueue.make Nat 1).drop_count + 1
        else (Gateway.BoundedQueue.make Nat 1).drop_count)) :=
  ⟨by decide, (Gateway.C6_bounded_queue_fifo 1 []).2.2.2.2 _ 7 (by decide)⟩

/-- C9: on a `BoundedQueue` constructed with capacity 0, every `try_push`
returns `Dropped` and bumps the drop counter, every `try_pop` returns
`none`, and the state stays at the freshly-constructed one (indices fixed
at 0) apart from the counter — the `% capacity` index arithmetic in the
success branches, which would divide by zero, is never executed. -/
theorem Gateway.C9_zero_capacity_total {α : Type} [Inhabited α]
    (ops : List (Gateway.QueueOp α)) :
    (Gateway.runQueue (Gateway.BoundedQueue.make α 0) ops).1 =
      { Gateway.BoundedQueue.make α 0 with
          drop_count := ops.countP fun op =>
            match op with | .push _ => true | .pop => false } ∧
    (Gateway.runQueue (Gateway.BoundedQueue.make α 0) ops).2 =
      ops.map fun op =>
        match op with
        | .push _ => .pushed .Dropped
        | .pop => .popped none := by
  have key : ∀ (ops : List (Gateway.QueueOp α)) (d : Nat),
      Gateway.runQueue { Gateway.BoundedQueue.make α 0 with drop_count := d } ops =
        ({ Gateway.BoundedQueue.make α 0 with
            drop_count := d + ops.countP fun op =>
              match op with | .push _ => true | .pop => false },
         ops.map fun op =>
           match op with
           | .push _ => .pushed .Dropped
           | .pop => .popped none) := by
    intro ops
    induction ops with
    | nil => intro d; simp [Gateway.runQueue]
    | cons op ops ih =>
      intro d
      cases op with
      | push a =>
        have hstep : ({ Gateway.BoundedQueue.make α 0 with drop_count := d } :
            Gateway.BoundedQueue α).try_push a =
            (.Dropped, { Gateway.BoundedQueue.make α 0 with drop_count := d + 1 }) := by
          simp [Gateway.BoundedQueue.try_push, Gateway.BoundedQueue.make]
        simp only [Gateway.runQueue, hstep, ih (d + 1), List.countP_cons, List.map_cons]
        refine Prod.ext ?_ rfl
        simp only
        congr 1
        simp
        omega
      | pop =>
        have hstep : ({ Gateway.BoundedQueue.make α 0 with drop_count := d } :
            Gateway.BoundedQueue α).try_pop =
            (none, { Gateway.BoundedQueue.make α 0 with drop_count := d }) := by
          simp [Gateway.BoundedQueue.try_pop, Gateway.BoundedQueue.make]
        simp only [Gateway.runQueue, hstep, ih d, List.countP_cons, List.map_cons]
        refine Prod.ext rfl rfl
  have h0 : (Gateway.BoundedQueue.make α 0) =
      { Gateway.BoundedQueue.make α 0 with drop_count := 0 } := rfl
  rw [h0, key ops 0]
  exact ⟨by simp, rfl⟩

namespace Gateway

/-! ## Association-list helpers

`std::unordered_map` states are modelled as association lists; these are
the embedding's `find`/`erase`/`update` primitives. -/

/-- Value of the first entry with the given key, if any. -/
def alistFind {κ β : Type} [DecidableEq κ] : List (κ × β) → κ → Option β
  | [], _ => none
  | p :: l, k => if p.1 = k then some p.2 else alistFind l k

/-- Remove the first entry with the given key, if any. -/
def alistEraseKey {κ β : Type} [DecidableEq κ] : List (κ × β) → κ → List (κ × β)
  | [], _ => []
  | p :: l, k => if p.1 = k then l else p :: alistEraseKey l k

/-- Replace the value of the first entry with the given key, if any. -/
def alistUpdate {κ β : Type} [DecidableEq κ] : List (κ × β) → κ → β → List (κ × β)
  | [], _, _ => []
  | p :: l, k, v => if p.1 = k then (k, v) :: l else p :: alistUpdate l k v

theorem alistFind_some_erase_length {κ β : Type} [DecidableEq κ] :
    ∀ (l : List (κ × β)) (k : κ) (b : β),
      alistFind l k = some b → l.length = (alistEraseKey l k).length + 1 := by
  intro l
  induction l with
  | nil => intro k b h; exact absurd h (by simp [alistFind])
  | cons p l ih =>
    intro k b h
    by_cases hp : p.1 = k
    · simp [alistEraseKey, hp]
    · simp only [alistFind, hp, if_false] at h
      simp only [alistEraseKey, hp, if_false, List.length_cons]
      rw [ih k b h]

/-- Dropping the last element commutes with `map` on the keys. -/
theorem map_dropLast {α β : Type} (f : α → β) :
    ∀ (l : List α), (l.dropLast).map f = (l.map f).dropLast := by
  intro l
  induction l with
  | nil => rfl
  | cons x xs ih =>
    cases xs with
    | nil => rfl
    | cons y ys =>
      simp only [List.dropLast_cons₂, List.map_cons]
      rw [ih]
      rfl

/-! ## TB-1.5: SourceLimiter (`src/source_limiter.cpp`)

`sources_` (map) and `lru_list_` are modelled jointly as a single
association list in LRU order, most recently used first; the C++ invariant
that map and list membership agree makes that pair equivalent to this one
list.  `double` token counts are `ℚ` and the injected clock returns times
in seconds as `ℚ`. -/

/-- An (ip, port) source endpoint (`gateway::SourceKey`). -/
structure SourceKey where
  ip : Nat
  port : Nat
deriving DecidableEq, Repr

/-- `gateway::SourceLimiterConfig`. -/
structure SourceLimiterConfig where
  max_sources : Nat
  tokens_per_sec : Nat
  burst_tokens : Nat
deriving DecidableEq, Repr

/-- `SourceLimiter::Bucket`: token count and last-refill time. -/
structure Bucket where
  tokens : ℚ
  last_update : ℚ
deriving DecidableEq, Repr

/-- Result of an admission check (`gateway::Admit`). -/
inductive Admit where
  | Allow
  | Drop
deriving DecidableEq, Repr

/-- Embedding of the `SourceLimiter` state. -/
structure SourceLimiter where
  config : SourceLimiterConfig
  entries : List (SourceKey × Bucket)
  total_admits : Nat
  total_drops : Nat
  eviction_count : Nat
deriving DecidableEq, Repr

/-- The `SourceLimiter` constructor: empty cache, zeroed counters. -/
def mkSourceLimiter (config : SourceLimiterConfig) : SourceLimiter :=
  ⟨config, [], 0, 0, 0⟩

/-- Embedding of `SourceLimiter::refill_bucket`; `now` is the value the
injected clock returns for the `clock_()` call inside the function.  Note
the C++ computes `tokens + elapsed × tokens_per_sec` with no clamp on a
negative `elapsed`. -/
def refill_bucket (config : SourceLimiterConfig) (now : ℚ) (bucket : Bucket) : Bucket :=
  let elapsed : ℚ := now - bucket.last_update
  let tokens_to_add : ℚ := elapsed * (config.tokens_per_sec : ℚ)
  { tokens := min (bucket.tokens + tokens_to_add) ((config.burst_tokens : ℚ)),
    last_update := now }

/-- Embedding of `SourceLimiter::evict_lru`: remove the back of the LRU
list (and its map entry) unless the list is empty. -/
def evict_lru (s : SourceLimiter) : SourceLimiter :=
  if s.entries = [] then s
  else { s with entries := s.entries.dropLast,
                eviction_count := s.eviction_count + 1 }

/-- The tail of `SourceLimiter::admit` after the entry for the admitted
source has been moved to (or created at) the front: refill the front
bucket, then try to consume one token.  The `[]` arm is unreachable —
`admitSource` always places the source's entry at the front first
(the name differs from the C++ `admit` for technical reasons only). -/
def consume_front (s1 : SourceLimiter) (now_refill : ℚ) : Admit × SourceLimiter :=
  match s1.entries with
  | [] => (Admit.Drop, s1)
  | (key, bucket0) :: rest =>
    let bucket1 := refill_bucket s1.config now_refill bucket0
    if bucket1.tokens ≥ 1 then
      (Admit.Allow,
       { s1 with entries := (key, { bucket1 with tokens := bucket1.tokens - 1 }) :: rest,
                 total_admits := s1.total_admits + 1 })
    else
      (Admit.Drop,
       { s1 with entries := (key, bucket1) :: rest,
                 total_drops := s1.total_drops + 1 })

/-- Embedding of `SourceLimiter::admit` (renamed here, same behaviour).
The injected clock is called
twice per admission (once at the top of `admit`, once inside
`refill_bucket`); `now` and `now_refill` are the two values it returns
(the tests' fake clock returns the same value for both). -/
def admitSource (s : SourceLimiter) (source : SourceKey) (now now_refill : ℚ) :
    Admit × SourceLimiter :=
  let s1 : SourceLimiter :=
    match alistFind s.entries source with
    | none =>
      let s' := if s.entries.length ≥ s.config.max_sources then evict_lru s else s
      { s' with entries :=
          (source, { tokens := (s'.config.burst_tokens : ℚ), last_update := now })
            :: s'.entries }
    | some bucket =>
      { s with entries := (source, bucket) :: alistEraseKey s.entries source }
  consume_front s1 now_refill

/-- `SourceLimiter::tracked_count`. -/
def tracked_count (s : SourceLimiter) : Nat := s.entries.length

/-- `SourceLimiter::is_tracked`. -/
def is_tracked (s : SourceLimiter) (source : SourceKey) : Bool :=
  (alistFind s.entries source).isSome

/-- The token count the limiter currently holds for a source. -/
def tokensOf (s : SourceLimiter) (source : SourceKey) : Option ℚ :=
  (alistFind s.entries source).map Bucket.tokens

/-- Run a sequence of admissions; each element carries the source and the
two values the injected clock returns during that call. -/
def runAdmits (s : SourceLimiter) : List (SourceKey × ℚ × ℚ) → SourceLimiter
  | [] => s
  | (k, n1, n2) :: ops => runAdmits (admitSource s k n1 n2).2 ops

theorem consume_front_entries_shape (s1 : SourceLimiter) (t : ℚ) :
    ((consume_front s1 t).2).entries.map Prod.fst = s1.entries.map Prod.fst ∧
    ((consume_front s1 t).2).entries.length = s1.entries.length ∧
    ((consume_front s1 t).2).config = s1.config := by
  cases h : s1.entries with
  | nil => simp [consume_front, h]
  | cons p rest =>
    obtain ⟨key, bucket0⟩ := p
    by_cases htok : (refill_bucket s1.config t bucket0).tokens ≥ 1 <;>
      simp [consume_front, h, htok]

theorem evict_lru_config (s : SourceLimiter) : (evict_lru s).config = s.config := by
  unfold evict_lru
  split <;> rfl

theorem admit_config (s : SourceLimiter) (source : SourceKey) (now now_refill : ℚ) :
    ((admitSource s source now now_refill).2).config = s.config := by
  cases hfind : alistFind s.entries source with
  | none =>
    simp only [admitSource, hfind]
    rw [(consume_front_entries_shape _ now_refill).2.2]
    by_cases hful : s.entries.length ≥ s.config.max_sources
    · simp only [hful, if_true]
      exact evict_lru_config s
    · simp only [hful, if_false]
  | some bucket =>
    simp only [admitSource, hfind]
    rw [(consume_front_entries_shape _ now_refill).2.2]

theorem admit_tracked_le (s : SourceLimiter) (source : SourceKey) (now now_refill : ℚ)
    (hmax : 1 ≤ s.config.max_sources)
    (hlen : s.entries.length ≤ s.config.max_sources) :
    ((admitSource s source now now_refill).2).entries.length ≤ s.config.max_sources := by
  cases hfind : alistFind s.entries source with
  | none =>
    by_cases hful : s.entries.length ≥ s.config.max_sources
    · have hne : s.entries ≠ [] := by
        intro he
        rw [he] at hful
        simp at hful
        omega
      have hlen' : s.entries.dropLast.length = s.entries.length - 1 :=
        List.length_dropLast s.entries
      simp only [admitSource, hfind, hful, if_true, evict_lru, if_neg hne]
      rw [(consume_front_entries_shape _ now_refill).2.1]
      simp only [List.length_cons, hlen']
      omega
    · simp only [admitSource, hfind, hful, if_false]
      rw [(consume_front_entries_shape _ now_refill).2.1]
      simp only [List.length_cons]
      omega
  | some bucket =>
    simp only [admitSource, hfind]
    rw [(consume_front_entries_shape _ now_refill).2.1]
    simp only [List.length_cons]
    have := alistFind_some_erase_length s.entries source bucket hfind
    omega

end Gateway

/-- C1 counterexample: one concrete admission sequence on which the
injected clock regresses and the refill step subtracts tokens.  With
config (max 10, rate 100, burst 100), an admission at t = 1 s leaves the
source's bucket at 99 tokens; a second admission at t = −1 s (clock
regression of 2 s) runs the refill, which adds −200 tokens instead of the
claimed zero, leaving the bucket at −101 < 99 tokens immediately after
the refill (the failed consume changes nothing further).  The claim that
the token count after the refill is never smaller than before it is
therefore false on the code. -/
theorem Gateway.C1_regression_counterexample :
    Gateway.tokensOf
        ((Gateway.admitSource (Gateway.mkSourceLimiter ⟨10, 100, 100⟩) ⟨1, 1⟩ 1 1).2)
        ⟨1, 1⟩ = some 99 ∧
    Gateway.tokensOf
        ((Gateway.admitSource
            ((Gateway.admitSource (Gateway.mkSourceLimiter ⟨10, 100, 100⟩) ⟨1, 1⟩ 1 1).2)
            ⟨1, 1⟩ (-1) (-1)).2) ⟨1, 1⟩ = some (-101) ∧
    ((-101 : ℚ) < 99) := by
  refine ⟨?_, ?_, by norm_num⟩ <;>
    norm_num [Gateway.admitSource, Gateway.mkSourceLimiter, Gateway.consume_front,
      Gateway.refill_bucket, Gateway.tokensOf, Gateway.alistFind, Gateway.evict_lru,
      Gateway.alistEraseKey, min_def]

/-- C1 amended: on clock regression the refill step adds
`elapsed × tokens_per_sec ≤ 0` rather than zero, so the token count
immediately after the refill is never *larger* than before it (and can be
strictly smaller, as the counterexample shows). -/
theorem Gateway.C1_refill_regression_decreases
    (config : Gateway.SourceLimiterConfig) (bucket : Gateway.Bucket) (now : ℚ)
    (h : now ≤ bucket.last_update) :
    (Gateway.refill_bucket config now bucket).tokens ≤ bucket.tokens := by
  have hrate : (0 : ℚ) ≤ (config.tokens_per_sec : ℚ) := Nat.cast_nonneg _
  have hadd : (now - bucket.last_update) * (config.tokens_per_sec : ℚ) ≤ 0 := by
    apply mul_nonpos_of_nonpos_of_nonneg _ hrate
    linarith
  refine le_trans (min_le_left _ _) ?_
  linarith

/-- C1 witness: the amended bound applied at a concrete regressed refill. -/
theorem Gateway.C1_refill_regression_decreases_witness :
    ((-1 : ℚ) ≤ (1 : ℚ)) ∧
    (Gateway.refill_bucket ⟨10, 100, 100⟩ (-1) ⟨99, 1⟩).tokens ≤ 99 :=
  ⟨by norm_num,
   Gateway.C1_refill_regression_decreases ⟨10, 100, 100⟩ ⟨99, 1⟩ (-1) (by norm_num)⟩

/-- C5 counterexample: with `max_sources = 0` the eviction step is a no-op
on the empty LRU list but the insertion still happens, so a single
admission leaves one tracked source — more than `max_sources`.  The claim,
quantified over every configuration, is therefore false at `M = 0`. -/
theorem Gateway.C5_zero_capacity_counterexample :
    Gateway.tracked_count
        ((Gateway.admitSource (Gateway.mkSourceLimiter ⟨0, 100, 100⟩) ⟨1, 1⟩ 0 0).2) = 1 ∧
    (Gateway.mkSourceLimiter ⟨0, 100, 100⟩).config.max_sources = 0 := by
  refine ⟨?_, rfl⟩
  norm_num [Gateway.admitSource, Gateway.mkSourceLimiter, Gateway.consume_front,
    Gateway.refill_bucket, Gateway.tracked_count, Gateway.alistFind, Gateway.evict_lru,
    Gateway.alistEraseKey, min_def]

/-- C5 amended: for every configuration with `max_sources ≥ 1` (any
positive cap; only the degenerate `M = 0` fails) the number of tracked
sources after every admission sequence is at most `max_sources`; and when
a new source arrives with the map at (or beyond) capacity, the strict LRU
entry — the back of the list — is evicted before the insertion, so the key
order becomes the new key followed by all old keys but the last. -/
theorem Gateway.C5_tracked_bounded :
    (∀ (config : Gateway.SourceLimiterConfig), 1 ≤ config.max_sources →
      ∀ (ops : List (Gateway.SourceKey × ℚ × ℚ)),
        Gateway.tracked_count (Gateway.runAdmits (Gateway.mkSourceLimiter config) ops) ≤
          config.max_sources) ∧
    (∀ (s : Gateway.SourceLimiter) (source : Gateway.SourceKey) (now now_refill : ℚ),
      Gateway.alistFind s.entries source = none →
      s.config.max_sources ≤ s.entries.length →
      1 ≤ s.entries.length →
      ((Gateway.admitSource s source now now_refill).2).entries.map Prod.fst =
        source :: (s.entries.map Prod.fst).dropLast) := by
  constructor
  · intro config hmax ops
    suffices h : ∀ (ops : List (Gateway.SourceKey × ℚ × ℚ)) (s : Gateway.SourceLimiter),
        s.config = config → s.entries.length ≤ config.max_sources →
        Gateway.tracked_count (Gateway.runAdmits s ops) ≤ config.max_sources by
      exact h ops _ rfl (by simp [Gateway.mkSourceLimiter])
    intro ops
    induction ops with
    | nil => intro s hcfg hlen; exact hlen
    | cons op ops ih =>
      obtain ⟨k, n1, n2⟩ := op
      intro s hcfg hlen
      refine ih _ ?_ ?_
      · rw [Gateway.admit_config, hcfg]
      · have := Gateway.admit_tracked_le s k n1 n2 (by rw [hcfg]; exact hmax)
          (by rw [hcfg]; exact hlen)
        rw [hcfg] at this
        exact this
  · intro s source now now_refill hfind hful hne
    have hne' : s.entries ≠ [] := by
      intro he
      rw [he] at hne
      simp at hne
    simp only [Gateway.admitSource, hfind, ge_iff_le, hful, if_true, Gateway.evict_lru,
      if_neg hne']
    rw [(Gateway.consume_front_entries_shape _ now_refill).1]
    simp only [List.map_cons]
    rw [Gateway.map_dropLast]

/-- C5 witness: both clauses applied at concrete inputs — a three-source
run against a cap of 2, and an at-capacity insertion evicting the LRU
key. -/
theorem Gateway.C5_tracked_bounded_witness :
    (1 ≤ (2 : Nat)) ∧
    (Gateway.tracked_count
        (Gateway.runAdmits (Gateway.mkSourceLimiter ⟨2, 100, 100⟩)
          [(⟨1, 1⟩, 0, 0), (⟨2, 1⟩, 0, 0), (⟨3, 1⟩, 0, 0)]) ≤ 2) ∧
    (((Gateway.admitSource
          ((Gateway.admitSource (Gateway.mkSourceLimiter ⟨1, 100, 100⟩) ⟨1, 1⟩ 0 0).2)
          ⟨2, 1⟩ 0 0).2).entries.map Prod.fst =
      ⟨2, 1⟩ ::
        ((((Gateway.admitSource (Gateway.mkSourceLimiter ⟨1, 100, 100⟩) ⟨1, 1⟩ 0 0).2).entries.map
            Prod.fst).dropLast)) :=
  ⟨by norm_num,
   Gateway.C5_tracked_bounded.1 ⟨2, 100, 100⟩ (by norm_num) _,
   Gateway.C5_tracked_bounded.2 _ ⟨2, 1⟩ 0 0
     (by norm_num [Gateway.admitSource, Gateway.mkSourceLimiter, Gateway.consume_front,
        Gateway.refill_bucket, Gateway.alistFind, Gateway.evict_lru,
        Gateway.alistEraseKey, min_def])
     (by norm_num [Gateway.admitSource, Gateway.mkSourceLimiter, Gateway.consume_front,
        Gateway.refill_bucket, Gateway.alistFind, Gateway.evict_lru,
        Gateway.alistEraseKey, min_def])
     (by norm_num [Gateway.admitSource, Gateway.mkSourceLimiter, Gateway.consume_front,
        Gateway.refill_bucket, Gateway.alistFind, Gateway.evict_lru,
        Gateway.alistEraseKey, min_def])⟩

namespace Gateway

/-! ## TB-5: AgentQuotaTracker and BoundedForwarder (`src/forwarder.cpp`)

The quota map `in_flight_` is an association list (`std::unordered_map`
has no observable order; a new entry is modelled as appended at the end);
the queue is the `BoundedQueue` ring embedded above; `Sink::write` is a
boolean function of the payload bytes. -/

/-- `gateway::EventType`. -/
inductive EventType where
  | Metrics
  | Log
deriving DecidableEq, Repr

/-- `gateway::QueuedEvent`: an owned event queued for forwarding. -/
structure QueuedEvent where
  agent_id : String
  type : EventType
  payload : List Byte
deriving DecidableEq, Repr

/-- The value-initialized `QueuedEvent` the queue's backing vector holds
in unused slots. -/
instance : Inhabited QueuedEvent := ⟨⟨"", .Metrics, []⟩⟩

/-- Embedding of `gateway::AgentQuotaTracker`. -/
structure AgentQuotaTracker where
  in_flight : List (String × Nat)
  max_per_agent : Nat
  total_in_flight : Nat
  quota_rejections : Nat
deriving DecidableEq, Repr

/-- The `AgentQuotaTracker` constructor. -/
def mkAgentQuotaTracker (max_per_agent : Nat) : AgentQuotaTracker :=
  ⟨[], max_per_agent, 0, 0⟩

/-- Embedding of `AgentQuotaTracker::try_reserve`.  `in_flight_[agent_id]`
value-initializes a 0 entry for an unknown agent before the quota test, so
the rejection path for a fresh agent (only possible when
`max_per_agent = 0`) leaves a zero-count entry behind, exactly as the C++
does. -/
def try_reserve (t : AgentQuotaTracker) (agent_id : String) :
    Bool × AgentQuotaTracker :=
  match alistFind t.in_flight agent_id with
  | some count =>
    if count ≥ t.max_per_agent then
      (false, { t with quota_rejections := t.quota_rejections + 1 })
    else
      (true, { t with in_flight := alistUpdate t.in_flight agent_id (count + 1),
                      total_in_flight := t.total_in_flight + 1 })
  | none =>
    if 0 ≥ t.max_per_agent then
      (false, { t with in_flight := t.in_flight ++ [(agent_id, 0)],
                       quota_rejections := t.quota_rejections + 1 })
    else
      (true, { t with in_flight := t.in_flight ++ [(agent_id, 1)],
                      total_in_flight := t.total_in_flight + 1 })

/-- Embedding of `AgentQuotaTracker::release`. -/
def release (t : AgentQuotaTracker) (agent_id : String) : AgentQuotaTracker :=
  match alistFind t.in_flight agent_id with
  | none => t
  | some count =>
    let count' := if count > 0 then count - 1 else count
    let total' := if count > 0 then t.total_in_flight - 1 else t.total_in_flight
    if count' = 0 then
      { t with in_flight := alistEraseKey t.in_flight agent_id,
               total_in_flight := total' }
    else
      { t with in_flight := alistUpdate t.in_flight agent_id count',
               total_in_flight := total' }

/-- `AgentQuotaTracker::in_flight_count`. -/
def in_flight_count (t : AgentQuotaTracker) (agent_id : String) : Nat :=
  (alistFind t.in_flight agent_id).getD 0

/-- `AgentQuotaTracker::tracked_agents`. -/
def tracked_agents (t : AgentQuotaTracker) : Nat := t.in_flight.length

/-- `gateway::ForwarderConfig`. -/
structure ForwarderConfig where
  max_queue_depth : Nat
  max_per_agent : Nat
deriving DecidableEq, Repr

/-- `gateway::ForwardResult`. -/
inductive ForwardResult where
  | Queued
  | DroppedQueueFull
  | DroppedAgentQuotaExceeded
deriving DecidableEq, Repr

/-- Embedding of `gateway::BoundedForwarder`. -/
structure BoundedForwarder where
  config : ForwarderConfig
  quota_tracker : AgentQuotaTracker
  queue : BoundedQueue QueuedEvent
  sink : List Byte → Bool
  total_forwarded : Nat
  dropped_queue_full : Nat
  dropped_quota : Nat
  sink_failures : Nat

/-- The `BoundedForwarder` constructor. -/
def mkBoundedForwarder (config : ForwarderConfig) (sink : List Byte → Bool) :
    BoundedForwarder :=
  ⟨config, mkAgentQuotaTracker config.max_per_agent,
   BoundedQueue.make QueuedEvent config.max_queue_depth, sink, 0, 0, 0, 0⟩

/-- Embedding of `BoundedForwarder::try_forward`: reserve quota first, then
try to enqueue; on queue-full release the reservation just taken. -/
def try_forward (f : BoundedForwarder) (event : QueuedEvent) :
    ForwardResult × BoundedForwarder :=
  let agent_id := event.agent_id
  let r := try_reserve f.quota_tracker agent_id
  if r.1 = false then
    (.DroppedAgentQuotaExceeded,
     { f with quota_tracker := r.2, dropped_quota := f.dropped_quota + 1 })
  else
    let p := f.queue.try_push event
    if p.1 = .Dropped then
      (.DroppedQueueFull,
       { f with quota_tracker := release r.2 agent_id, queue := p.2,
                dropped_queue_full := f.dropped_queue_full + 1 })
    else
      (.Queued, { f with quota_tracker := r.2, queue := p.2 })

/-- Embedding of `BoundedForwarder::drain_one`: pop the oldest event,
release its agent's quota unconditionally, hand the payload to the sink,
and count a failure instead of retrying. -/
def drain_one (f : BoundedForwarder) : Bool × BoundedForwarder :=
  let p := f.queue.try_pop
  match p.1 with
  | none => (false, f)
  | some event =>
    let qt := release f.quota_tracker event.agent_id
    if f.sink event.payload then
      (true, { f with queue := p.2, quota_tracker := qt,
                      total_forwarded := f.total_forwarded + 1 })
    else
      (true, { f with queue := p.2, quota_tracker := qt,
                      sink_failures := f.sink_failures + 1 })

/-- One forwarder operation: a `try_forward` of an event, or a
`drain_one`. -/
inductive FwdOp where
  | forward (event : QueuedEvent)
  | drain

/-- Apply one operation (keeping only the state). -/
def stepFwd (f : BoundedForwarder) : FwdOp → BoundedForwarder
  | .forward event => (try_forward f event).2
  | .drain => (drain_one f).2

/-- Run a sequence of forwarder operations. -/
def runFwd (f : BoundedForwarder) : List FwdOp → BoundedForwarder
  | [] => f
  | op :: ops => runFwd (stepFwd f op) ops

/-- Number of queued events belonging to an agent. -/
def countAgent (l : List QueuedEvent) (agent_id : String) : Nat :=
  l.countP fun e => decide (e.agent_id = agent_id)

/-- Sum of the per-agent in-flight counts. -/
def alistSum {κ : Type} (l : List (κ × Nat)) : Nat := (l.map Prod.snd).sum

/-- The relation the quota map must keep with the queued events `Q`: keys
are distinct, each entry counts exactly that agent's queued events and
lies in `[1, maxq]`, every queued event's agent is tracked, and the entry
sum equals the number of queued events. -/
def QuotaParts (l : List (String × Nat)) (maxq : Nat) (Q : List QueuedEvent) : Prop :=
  (l.map Prod.fst).Nodup ∧
  (∀ p ∈ l, 1 ≤ p.2 ∧ p.2 ≤ maxq ∧ p.2 = countAgent Q p.1) ∧
  (∀ e ∈ Q, e.agent_id ∈ l.map Prod.fst) ∧
  alistSum l = Q.length

instance (l : List (String × Nat)) (maxq : Nat) (Q : List QueuedEvent) :
    Decidable (QuotaParts l maxq Q) := by
  unfold QuotaParts; infer_instance

/-- Invariant of every forwarder state reachable from the constructor
under a positive `max_per_agent`. -/
def FwdInv (f : BoundedForwarder) : Prop :=
  f.queue.Inv ∧
  1 ≤ f.quota_tracker.max_per_agent ∧
  QuotaParts f.quota_tracker.in_flight f.quota_tracker.max_per_agent f.queue.toList ∧
  f.quota_tracker.total_in_flight = f.queue.toList.length

instance (f : BoundedForwarder) : Decidable (FwdInv f) := by
  unfold FwdInv; infer_instance

/-! ### Association-list facts used by the forwarder proofs -/

theorem alistFind_eq_none_iff {κ β : Type} [DecidableEq κ] :
    ∀ (l : List (κ × β)) (k : κ), alistFind l k = none ↔ k ∉ l.map Prod.fst := by
  intro l k
  induction l with
  | nil => simp [alistFind]
  | cons p l ih =>
    show (if p.1 = k then some p.2 else alistFind l k) = none ↔ _
    by_cases hp : p.1 = k
    · simp [hp]
    · rw [if_neg hp, ih]
      simp only [List.map_cons, List.mem_cons, not_or]
      constructor
      · intro h
        exact ⟨fun e => hp e.symm, h⟩
      · intro h
        exact h.2

theorem alistFind_mem {κ β : Type} [DecidableEq κ] :
    ∀ {l : List (κ × β)} {k : κ} {v : β}, alistFind l k = some v → (k, v) ∈ l := by
  intro l
  induction l with
  | nil => intro k v h; exact absurd h (by simp [alistFind])
  | cons p l ih =>
    intro k v h
    by_cases hp : p.1 = k
    · simp only [alistFind, hp, if_true, Option.some.injEq] at h
      have hpv : (k, v) = p := by rw [← hp, ← h]
      rw [hpv]
      exact List.mem_cons_self p l
    · simp only [alistFind, hp, if_false] at h
      exact List.mem_cons_of_mem _ (ih h)

theorem alistFind_update_self {κ β : Type} [DecidableEq κ] :
    ∀ {l : List (κ × β)} {k : κ} {c : β} (v : β), alistFind l k = some c →
      alistFind (alistUpdate l k v) k = some v := by
  intro l
  induction l with
  | nil => intro k c v h; exact absurd h (by simp [alistFind])
  | cons p l ih =>
    intro k c v h
    by_cases hp : p.1 = k
    · simp [alistUpdate, alistFind, hp]
    · simp only [alistFind, hp, if_false] at h
      simp only [alistUpdate, hp, if_false, alistFind]
      exact ih v h

theorem alistUpdate_keys {κ β : Type} [DecidableEq κ] :
    ∀ (l : List (κ × β)) (k : κ) (v : β),
      (alistUpdate l k v).map Prod.fst = l.map Prod.fst := by
  intro l
  induction l with
  | nil => intro k v; rfl
  | cons p l ih =>
    intro k v
    by_cases hp : p.1 = k
    · simp [alistUpdate, hp]
    · simp [alistUpdate, hp, ih]

theorem alistUpdate_update_cancel {κ β : Type} [DecidableEq κ] :
    ∀ {l : List (κ × β)} {k : κ} {c : β} (v : β), alistFind l k = some c →
      alistUpdate (alistUpdate l k v) k c = l := by
  intro l
  induction l with
  | nil => intro k c v h; exact absurd h (by simp [alistFind])
  | cons p l ih =>
    intro k c v h
    by_cases hp : p.1 = k
    · simp only [alistFind, hp, if_true, Option.some.injEq] at h
      simp only [alistUpdate, hp, if_true, if_pos rfl]
      rw [← hp, ← h]
    · simp only [alistFind, hp, if_false] at h
      simp only [alistUpdate, hp, if_false, ih v h]

theorem alistFind_append_single_self {κ β : Type} [DecidableEq κ] :
    ∀ {l : List (κ × β)} {k : κ} (v : β), alistFind l k = none →
      alistFind (l ++ [(k, v)]) k = some v := by
  intro l
  induction l with
  | nil => intro k v _; simp [alistFind]
  | cons p l ih =>
    intro k v h
    by_cases hp : p.1 = k
    · simp [alistFind, hp] at h
    · simp only [alistFind, hp, if_false] at h
      simp only [List.cons_append, alistFind, hp, if_false]
      exact ih v h

theorem alistErase_append_single_cancel {κ β : Type} [DecidableEq κ] :
    ∀ {l : List (κ × β)} {k : κ} (v : β), alistFind l k = none →
      alistEraseKey (l ++ [(k, v)]) k = l := by
  intro l
  induction l with
  | nil => intro k v _; simp [alistEraseKey]
  | cons p l ih =>
    intro k v h
    by_cases hp : p.1 = k
    · simp [alistFind, hp] at h
    · simp only [alistFind, hp, if_false] at h
      simp only [List.cons_append, alistEraseKey, hp, if_false]
      exact congrArg (List.cons p) (ih v h)

theorem mem_alistUpdate_of_nodup {κ β : Type} [DecidableEq κ] :
    ∀ {l : List (κ × β)} {k : κ} {v : β} {p : κ × β},
      (l.map Prod.fst).Nodup → p ∈ alistUpdate l k v →
      p = (k, v) ∨ (p ∈ l ∧ p.1 ≠ k) := by
  intro l
  induction l with
  | nil => intro k v p _ h; exact absurd h (by simp [alistUpdate])
  | cons q l ih =>
    intro k v p hnd h
    simp only [List.map_cons, List.nodup_cons] at hnd
    by_cases hq : q.1 = k
    · simp only [alistUpdate, hq, if_true] at h
      rcases List.mem_cons.mp h with h' | h'
      · exact Or.inl h'
      · refine Or.inr ⟨List.mem_cons_of_mem _ h', ?_⟩
        intro hpk
        apply hnd.1
        have hm : p.1 ∈ List.map Prod.fst l := List.mem_map_of_mem Prod.fst h'
        rwa [hpk, ← hq] at hm
    · simp only [alistUpdate, hq, if_false] at h
      rcases List.mem_cons.mp h with h' | h'
      · refine Or.inr ⟨by rw [h']; exact List.mem_cons_self q l, by rw [h']; exact hq⟩
      · rcases ih hnd.2 h' with h'' | h''
        · exact Or.inl h''
        · exact Or.inr ⟨List.mem_cons_of_mem _ h''.1, h''.2⟩

theorem mem_alistErase_of_nodup {κ β : Type} [DecidableEq κ] :
    ∀ {l : List (κ × β)} {k : κ} {p : κ × β},
      (l.map Prod.fst).Nodup → p ∈ alistEraseKey l k →
      p ∈ l ∧ p.1 ≠ k := by
  intro l
  induction l with
  | nil => intro k p _ h; exact absurd h (by simp [alistEraseKey])
  | cons q l ih =>
    intro k p hnd h
    simp only [List.map_cons, List.nodup_cons] at hnd
    by_cases hq : q.1 = k
    · simp only [alistEraseKey, hq, if_true] at h
      refine ⟨List.mem_cons_of_mem _ h, ?_⟩
      intro hpk
      apply hnd.1
      have hm : p.1 ∈ List.map Prod.fst l := List.mem_map_of_mem Prod.fst h
      rwa [hpk, ← hq] at hm
    · simp only [alistEraseKey, hq, if_false] at h
      rcases List.mem_cons.mp h with h' | h'
      · exact ⟨by rw [h']; exact List.mem_cons_self q l, by rw [h']; exact hq⟩
      · obtain ⟨h1, h2⟩ := ih hnd.2 h'
        exact ⟨List.mem_cons_of_mem _ h1, h2⟩

theorem alistErase_mem_of_ne {κ β : Type} [DecidableEq κ] :
    ∀ {l : List (κ × β)} {k : κ} {p : κ × β},
      p ∈ l → p.1 ≠ k → p ∈ alistEraseKey l k := by
  intro l
  induction l with
  | nil => intro k p h _; exact absurd h (by simp)
  | cons q l ih =>
    intro k p h hne
    by_cases hq : q.1 = k
    · simp only [alistEraseKey, hq, if_true]
      rcases List.mem_cons.mp h with h' | h'
      · exact absurd (by rw [h']; exact hq) hne
      · exact h'
    · simp only [alistEraseKey, hq, if_false]
      rcases List.mem_cons.mp h with h' | h'
      · rw [h']; exact List.mem_cons_self q _
      · exact List.mem_cons_of_mem _ (ih h' hne)

theorem alistErase_keys_sublist {κ β : Type} [DecidableEq κ] :
    ∀ (l : List (κ × β)) (k : κ),
      ((alistEraseKey l k).map Prod.fst).Sublist (l.map Prod.fst) := by
  intro l
  induction l with
  | nil => intro k; simp [alistEraseKey]
  | cons q l ih =>
    intro k
    by_cases hq : q.1 = k
    · simp only [alistEraseKey, hq, if_true, List.map_cons]
      exact List.sublist_cons_self _ _
    · simp only [alistEraseKey, hq, if_false, List.map_cons]
      exact List.Sublist.cons₂ _ (ih k)

theorem alistFind_erase_self_of_nodup {κ β : Type} [DecidableEq κ] :
    ∀ {l : List (κ × β)} (k : κ), (l.map Prod.fst).Nodup →
      alistFind (alistEraseKey l k) k = none := by
  intro l k hnd
  rw [alistFind_eq_none_iff]
  intro hmem
  obtain ⟨p, hp, hpk⟩ := List.mem_map.mp hmem
  obtain ⟨_, hne⟩ := mem_alistErase_of_nodup hnd hp
  exact hne hpk

theorem alistSum_update {κ : Type} [DecidableEq κ] :
    ∀ {l : List (κ × Nat)} {k : κ} {c : Nat} (v : Nat), alistFind l k = some c →
      alistSum (alistUpdate l k v) + c = alistSum l + v := by
  intro l
  induction l with
  | nil => intro k c v h; exact absurd h (by simp [alistFind])
  | cons p l ih =>
    intro k c v h
    by_cases hp : p.1 = k
    · simp only [alistFind, hp, if_true, Option.some.injEq] at h
      simp only [alistUpdate, hp, if_true, alistSum, List.map_cons, List.sum_cons]
      rw [← h]
      omega
    · simp only [alistFind, hp, if_false] at h
      simp only [alistUpdate, hp, if_false, alistSum, List.map_cons, List.sum_cons]
      have := ih v h
      simp only [alistSum] at this
      omega

theorem alistSum_append_single {κ : Type} (l : List (κ × Nat)) (k : κ) (v : Nat) :
    alistSum (l ++ [(k, v)]) = alistSum l + v := by
  simp [alistSum]

theorem alistSum_erase {κ : Type} [DecidableEq κ] :
    ∀ {l : List (κ × Nat)} {k : κ} {c : Nat}, alistFind l k = some c →
      alistSum (alistEraseKey l k) + c = alistSum l := by
  intro l
  induction l with
  | nil => intro k c h; exact absurd h (by simp [alistFind])
  | cons p l ih =>
    intro k c h
    by_cases hp : p.1 = k
    · simp only [alistFind, hp, if_true, Option.some.injEq] at h
      simp only [alistEraseKey, hp, if_true, alistSum, List.map_cons, List.sum_cons]
      omega
    · simp only [alistFind, hp, if_false] at h
      simp only [alistEraseKey, hp, if_false, alistSum, List.map_cons, List.sum_cons]
      have := ih h
      simp only [alistSum] at this
      omega

theorem length_le_alistSum {κ : Type} :
    ∀ {l : List (κ × Nat)}, (∀ p ∈ l, 1 ≤ p.2) → l.length ≤ alistSum l := by
  intro l
  induction l with
  | nil => intro _; simp [alistSum]
  | cons p l ih =>
    intro h
    have h1 := h p (List.mem_cons_self p l)
    have h2 := ih fun q hq => h q (List.mem_cons_of_mem p hq)
    simp only [alistSum, List.map_cons, List.sum_cons, List.length_cons]
    simp only [alistSum] at h2
    omega

theorem countAgent_append (l : List QueuedEvent) (e : QueuedEvent) (a : String) :
    countAgent (l ++ [e]) a =
      countAgent l a + (if e.agent_id = a then 1 else 0) := by
  simp only [countAgent, List.countP_append, List.countP_cons, List.countP_nil]
  by_cases h : e.agent_id = a <;> simp [h]

theorem countAgent_cons (e : QueuedEvent) (l : List QueuedEvent) (a : String) :
    countAgent (e :: l) a =
      countAgent l a + (if e.agent_id = a then 1 else 0) := by
  simp only [countAgent, List.countP_cons]
  by_cases h : e.agent_id = a <;> simp [h]

theorem countAgent_eq_zero {l : List QueuedEvent} {keys : List String} {a : String}
    (hall : ∀ e ∈ l, e.agent_id ∈ keys) (hk : a ∉ keys) :
    countAgent l a = 0 := by
  rw [countAgent, List.countP_eq_zero]
  intro e he
  simp only [decide_eq_true_eq]
  intro hea
  exact hk (hea ▸ hall e he)

/-- A successful `try_reserve` followed by `release` of the same agent
restores the tracker exactly — the state equality behind the
release-on-enqueue-failure path of `try_forward`. -/
theorem reserve_release_cancel (t : AgentQuotaTracker) (a : String)
    (hmax : 1 ≤ t.max_per_agent)
    (hentry : ∀ p ∈ t.in_flight, 1 ≤ p.2)
    (hres : (try_reserve t a).1 = true) :
    release (try_reserve t a).2 a = t := by
  obtain ⟨l, m, tot, rej⟩ := t
  simp only at hentry hmax
  cases hfind : alistFind l a with
  | some c =>
    have hc : 1 ≤ c := hentry (a, c) (alistFind_mem hfind)
    by_cases hge : c ≥ m
    · simp only [try_reserve, hfind, hge, if_true] at hres
      exact absurd hres (by decide)
    · simp only [try_reserve, hfind, hge, if_false] at hres ⊢
      simp only [release, alistFind_update_self (c := c) (c + 1) hfind]
      have h1 : c + 1 > 0 := by omega
      simp only [h1, if_true]
      have h2 : ¬ (c + 1 - 1 = 0) := by omega
      simp only [Nat.add_sub_cancel] at h2 ⊢
      rw [if_neg h2]
      have h3 : alistUpdate (alistUpdate l a (c + 1)) a c = l :=
        alistUpdate_update_cancel (c + 1) hfind
      simp only [h3, Nat.add_sub_cancel]
  | none =>
    have h0 : ¬ (0 ≥ m) := by omega
    simp only [try_reserve, hfind, h0, if_false] at hres ⊢
    simp only [release, alistFind_append_single_self 1 hfind]
    have he : alistEraseKey (l ++ [(a, 1)]) a = l :=
      alistErase_append_single_cancel 1 hfind
    norm_num [he]

end Gateway

/-- C4: whenever `try_forward` fails with `DroppedQueueFull`, the quota
reservation taken in step 1 has been released again, so the tracker is
exactly what it was before the call (in particular the event's agent keeps
its old in-flight count), the queue contents are unchanged, and only the
queue-full drop counter advanced. -/
theorem Gateway.C4_queue_full_releases_quota
    (f : Gateway.BoundedForwarder) (event : Gateway.QueuedEvent)
    (hInv : Gateway.FwdInv f)
    (hres : (Gateway.try_forward f event).1 = .DroppedQueueFull) :
    (Gateway.try_forward f event).2.quota_tracker = f.quota_tracker ∧
    (Gateway.try_forward f event).2.queue.toList = f.queue.toList ∧
    (Gateway.try_forward f event).2.queue.size = f.queue.size ∧
    Gateway.in_flight_count (Gateway.try_forward f event).2.quota_tracker event.agent_id =
      Gateway.in_flight_count f.quota_tracker event.agent_id ∧
    (Gateway.try_forward f event).2.dropped_queue_full = f.dropped_queue_full + 1 := by
  by_cases hr : (Gateway.try_reserve f.quota_tracker event.agent_id).1 = false
  · simp only [Gateway.try_forward, hr, if_true] at hres
    exact absurd hres (by decide)
  · by_cases hp : (f.queue.try_push event).1 = .Dropped
    · have hfull : f.queue.capacity ≤ f.queue.size := by
        by_contra hlt
        have hok := (Gateway.BoundedQueue.try_push_ok event hInv.1
          (Nat.lt_of_not_le hlt)).1
        rw [hok] at hp
        exact Gateway.PushResult.noConfusion hp
      have hpush := Gateway.BoundedQueue.try_push_full (q := f.queue) event hfull
      have hres' : (Gateway.try_reserve f.quota_tracker event.agent_id).1 = true := by
        cases h : (Gateway.try_reserve f.quota_tracker event.agent_id).1
        · exact absurd h hr
        · rfl
      have hcancel : Gateway.release
          (Gateway.try_reserve f.quota_tracker event.agent_id).2 event.agent_id =
          f.quota_tracker :=
        Gateway.reserve_release_cancel _ _ hInv.2.1
          (fun p hpmem => (hInv.2.2.1.2.1 p hpmem).1) hres'
      refine ⟨?_, ?_, ?_, ?_, ?_⟩ <;>
        simp only [Gateway.try_forward, hr, if_false, hp, if_true, hpush, hcancel] <;>
        rfl
    · simp [Gateway.try_forward, hr, hp] at hres

namespace Gateway

/-! ### Preservation of `QuotaParts` under the three mutating steps -/

theorem QuotaParts_push_existing {l : List (String × Nat)} {maxq : Nat}
    {Q : List QueuedEvent} {c : Nat} {ev : QueuedEvent}
    (h : QuotaParts l maxq Q)
    (hfind : alistFind l ev.agent_id = some c) (hlt : c < maxq) :
    QuotaParts (alistUpdate l ev.agent_id (c + 1)) maxq (Q ++ [ev]) := by
  obtain ⟨hnd, hent, hmem, hsum⟩ := h
  have hcval : c = countAgent Q ev.agent_id := (hent _ (alistFind_mem hfind)).2.2
  refine ⟨?_, ?_, ?_, ?_⟩
  · rw [alistUpdate_keys]
    exact hnd
  · intro p hp
    rcases mem_alistUpdate_of_nodup hnd hp with hpe | ⟨hpl, hpk⟩
    · rw [hpe]
      refine ⟨by show 1 ≤ c + 1; omega, by show c + 1 ≤ maxq; omega, ?_⟩
      show c + 1 = countAgent (Q ++ [ev]) ev.agent_id
      rw [countAgent_append, if_pos rfl]
      omega
    · obtain ⟨h1, h2, h3⟩ := hent p hpl
      refine ⟨h1, h2, ?_⟩
      rw [countAgent_append, if_neg (fun e => hpk e.symm), Nat.add_zero]
      exact h3
  · intro e he
    rw [alistUpdate_keys]
    rcases List.mem_append.mp he with he' | he'
    · exact hmem e he'
    · rw [List.mem_singleton.mp he']
      exact List.mem_map_of_mem Prod.fst (alistFind_mem hfind)
  · have := alistSum_update (c + 1) hfind
    rw [List.length_append]
    simp only [List.length_singleton]
    omega

theorem QuotaParts_push_new {l : List (String × Nat)} {maxq : Nat}
    {Q : List QueuedEvent} {ev : QueuedEvent}
    (h : QuotaParts l maxq Q)
    (hfind : alistFind l ev.agent_id = none) (hmax : 1 ≤ maxq) :
    QuotaParts (l ++ [(ev.agent_id, 1)]) maxq (Q ++ [ev]) := by
  obtain ⟨hnd, hent, hmem, hsum⟩ := h
  have hnotmem : ev.agent_id ∉ l.map Prod.fst := (alistFind_eq_none_iff l _).mp hfind
  refine ⟨?_, ?_, ?_, ?_⟩
  · rw [List.map_append]
    refine List.Nodup.append hnd (List.nodup_singleton _) ?_
    intro x hx hx'
    rw [List.mem_singleton.mp hx'] at hx
    exact hnotmem hx
  · intro p hp
    rcases List.mem_append.mp hp with hpl | hpe
    · obtain ⟨h1, h2, h3⟩ := hent p hpl
      have hpk : p.1 ≠ ev.agent_id := by
        intro e
        exact hnotmem (e ▸ List.mem_map_of_mem Prod.fst hpl)
      refine ⟨h1, h2, ?_⟩
      rw [countAgent_append, if_neg (fun e => hpk e.symm), Nat.add_zero]
      exact h3
    · rw [List.mem_singleton.mp hpe]
      refine ⟨le_refl 1, hmax, ?_⟩
      rw [countAgent_append, if_pos rfl, countAgent_eq_zero hmem hnotmem]
  · intro e he
    rw [List.map_append]
    rcases List.mem_append.mp he with he' | he'
    · exact List.mem_append_left _ (hmem e he')
    · rw [List.mem_singleton.mp he']
      exact List.mem_append_right _ (by simp)
  · rw [alistSum_append_single, List.length_append, hsum]
    rfl

theorem QuotaParts_pop {l : List (String × Nat)} {maxq : Nat}
    {e : QueuedEvent} {R : List QueuedEvent}
    (h : QuotaParts l maxq (e :: R)) :
    ∃ c, alistFind l e.agent_id = some c ∧ 1 ≤ c ∧ c = countAgent R e.agent_id + 1 ∧
      QuotaParts
        (if c - 1 = 0 then alistEraseKey l e.agent_id
         else alistUpdate l e.agent_id (c - 1)) maxq R := by
  obtain ⟨hnd, hent, hmem, hsum⟩ := h
  have hkey : e.agent_id ∈ l.map Prod.fst := hmem e (List.mem_cons_self e R)
  obtain ⟨c, hfind⟩ : ∃ c, alistFind l e.agent_id = some c := by
    cases hf : alistFind l e.agent_id with
    | none => exact absurd ((alistFind_eq_none_iff l _).mp hf) (by simpa using hkey)
    | some c => exact ⟨c, rfl⟩
  have h₀ := hent _ (alistFind_mem hfind)
  have hc1 : 1 ≤ c := h₀.1
  have hcmax : c ≤ maxq := h₀.2.1
  have hccount : c = countAgent (e :: R) e.agent_id := h₀.2.2
  have hcR : c = countAgent R e.agent_id + 1 := by
    rw [hccount, countAgent_cons, if_pos rfl]
  refine ⟨c, hfind, hc1, hcR, ?_⟩
  by_cases hz : c - 1 = 0
  · have hc1' : c = 1 := by omega
    have hR0 : countAgent R e.agent_id = 0 := by omega
    rw [if_pos hz]
    refine ⟨?_, ?_, ?_, ?_⟩
    · exact (alistErase_keys_sublist l e.agent_id).nodup hnd
    · intro p hp
      obtain ⟨hpl, hpk⟩ := mem_alistErase_of_nodup hnd hp
      obtain ⟨h1, h2, h3⟩ := hent p hpl
      refine ⟨h1, h2, ?_⟩
      rw [h3, countAgent_cons, if_neg (fun h' => hpk h'.symm), Nat.add_zero]
    · intro e' he'
      have hne : e'.agent_id ≠ e.agent_id := by
        intro heq
        have : 0 < countAgent R e.agent_id := by
          rw [countAgent, List.countP_pos_iff]
          exact ⟨e', he', by simp [heq]⟩
        omega
      obtain ⟨p, hpl, hpfst⟩ := List.mem_map.mp (hmem e' (List.mem_cons_of_mem e he'))
      have hp' : p ∈ alistEraseKey l e.agent_id :=
        alistErase_mem_of_ne hpl (by rw [hpfst]; exact hne)
      rw [← hpfst]
      exact List.mem_map_of_mem Prod.fst hp'
    · have := alistSum_erase hfind
      simp only [List.length_cons] at hsum
      omega
  · rw [if_neg hz]
    refine ⟨?_, ?_, ?_, ?_⟩
    · rw [alistUpdate_keys]
      exact hnd
    · intro p hp
      rcases mem_alistUpdate_of_nodup hnd hp with hpe | ⟨hpl, hpk⟩
      · rw [hpe]
        refine ⟨by show 1 ≤ c - 1; omega, by show c - 1 ≤ maxq; omega, ?_⟩
        show c - 1 = countAgent R e.agent_id
        omega
      · obtain ⟨h1, h2, h3⟩ := hent p hpl
        refine ⟨h1, h2, ?_⟩
        rw [h3, countAgent_cons, if_neg (fun h' => hpk h'.symm), Nat.add_zero]
    · intro e' he'
      rw [alistUpdate_keys]
      exact hmem e' (List.mem_cons_of_mem e he')
    · have := alistSum_update (c - 1) hfind
      simp only [List.length_cons] at hsum
      omega

/-- `release` at a positively-counted key, written as its two branches. -/
theorem release_of_find {t : AgentQuotaTracker} {a : String} {c : Nat}
    (hfind : alistFind t.in_flight a = some c) (hc : 1 ≤ c) :
    release t a =
      if c - 1 = 0 then
        { t with in_flight := alistEraseKey t.in_flight a,
                 total_in_flight := t.total_in_flight - 1 }
      else
        { t with in_flight := alistUpdate t.in_flight a (c - 1),
                 total_in_flight := t.total_in_flight - 1 } := by
  have hpos : c > 0 := hc
  simp only [release, hfind, hpos, if_true]

theorem try_reserve_max (t : AgentQuotaTracker) (a : String) :
    (try_reserve t a).2.max_per_agent = t.max_per_agent := by
  cases hfind : alistFind t.in_flight a with
  | some c => by_cases hge : c ≥ t.max_per_agent <;> simp [try_reserve, hfind, hge]
  | none => by_cases h0 : 0 ≥ t.max_per_agent <;> simp [try_reserve, hfind, h0]

theorem release_max (t : AgentQuotaTracker) (a : String) :
    (release t a).max_per_agent = t.max_per_agent := by
  cases hfind : alistFind t.in_flight a with
  | none => simp [release, hfind]
  | some c =>
    by_cases hz : (if c > 0 then c - 1 else c) = 0 <;> simp [release, hfind, hz]

theorem try_reserve_false_state {t : AgentQuotaTracker} {a : String}
    (hmax : 1 ≤ t.max_per_agent) (h : (try_reserve t a).1 = false) :
    (try_reserve t a).2 = { t with quota_rejections := t.quota_rejections + 1 } := by
  cases hfind : alistFind t.in_flight a with
  | some c =>
    by_cases hge : c ≥ t.max_per_agent
    · simp [try_reserve, hfind, hge]
    · simp [try_reserve, hfind, hge] at h
  | none =>
    have h0 : ¬ ((0 : Nat) ≥ t.max_per_agent) := by omega
    simp [try_reserve, hfind, h0] at h

theorem try_reserve_some {t : AgentQuotaTracker} {a : String} {c : Nat}
    (hfind : alistFind t.in_flight a = some c) (hlt : c < t.max_per_agent) :
    try_reserve t a =
      (true, { t with in_flight := alistUpdate t.in_flight a (c + 1),
                      total_in_flight := t.total_in_flight + 1 }) := by
  have hge : ¬ (c ≥ t.max_per_agent) := by omega
  simp [try_reserve, hfind, hge]

theorem try_reserve_none {t : AgentQuotaTracker} {a : String}
    (hfind : alistFind t.in_flight a = none) (hmax : 1 ≤ t.max_per_agent) :
    try_reserve t a =
      (true, { t with in_flight := t.in_flight ++ [(a, 1)],
                      total_in_flight := t.total_in_flight + 1 }) := by
  have h0 : ¬ ((0 : Nat) ≥ t.max_per_agent) := by omega
  simp [try_reserve, hfind, h0]

/-- `try_forward` preserves the forwarder invariant. -/
theorem try_forward_inv (f : BoundedForwarder) (event : QueuedEvent)
    (h : FwdInv f) : FwdInv (try_forward f event).2 := by
  obtain ⟨hq, hmax, hparts, htot⟩ := h
  by_cases hr : (try_reserve f.quota_tracker event.agent_id).1 = false
  · have hstate := try_reserve_false_state hmax hr
    simp only [try_forward, hr, if_true]
    rw [hstate]
    exact ⟨hq, hmax, hparts, htot⟩
  · have hres' : (try_reserve f.quota_tracker event.agent_id).1 = true := by
      cases h' : (try_reserve f.quota_tracker event.agent_id).1
      · exact absurd h' hr
      · rfl
    by_cases hp : (f.queue.try_push event).1 = .Dropped
    · -- queue full: the reservation is released, restoring the tracker
      have hfull : f.queue.capacity ≤ f.queue.size := by
        by_contra hlt
        have hok := (BoundedQueue.try_push_ok event hq (Nat.lt_of_not_le hlt)).1
        rw [hok] at hp
        exact PushResult.noConfusion hp
      have hpush := BoundedQueue.try_push_full (q := f.queue) event hfull
      have hcancel :=
        reserve_release_cancel f.quota_tracker event.agent_id hmax
          (fun p hpmem => (hparts.2.1 p hpmem).1) hres'
      simp only [try_forward, hr, if_false, hp, if_true, hpush, hcancel]
      exact ⟨hq, hmax, hparts, htot⟩
    · -- queued: one more event for this agent
      have hlt' : f.queue.size < f.queue.capacity := by
        by_contra hge
        rw [BoundedQueue.try_push_full event (Nat.le_of_not_lt hge)] at hp
        exact hp rfl
      obtain ⟨hok, htl, hinv', hsz', hcap', hdc'⟩ := BoundedQueue.try_push_ok event hq hlt'
      simp only [try_forward, hr, if_false, hp, if_false]
      cases hfind : alistFind f.quota_tracker.in_flight event.agent_id with
      | some c =>
        have hltc : c < f.quota_tracker.max_per_agent := by
          by_contra hge
          apply hr
          simp [try_reserve, hfind, Nat.le_of_not_lt hge]
        rw [try_reserve_some hfind hltc]
        refine ⟨hinv', hmax, ?_, ?_⟩
        · show QuotaParts (alistUpdate f.quota_tracker.in_flight event.agent_id (c + 1))
            f.quota_tracker.max_per_agent ((f.queue.try_push event).2.toList)
          rw [htl]
          exact QuotaParts_push_existing hparts hfind hltc
        · show f.quota_tracker.total_in_flight + 1 = (f.queue.try_push event).2.toList.length
          rw [htl, List.length_append, htot]
          rfl
      | none =>
        rw [try_reserve_none hfind hmax]
        refine ⟨hinv', hmax, ?_, ?_⟩
        · show QuotaParts (f.quota_tracker.in_flight ++ [(event.agent_id, 1)])
            f.quota_tracker.max_per_agent ((f.queue.try_push event).2.toList)
          rw [htl]
          exact QuotaParts_push_new hparts hfind hmax
        · show f.quota_tracker.total_in_flight + 1 = (f.queue.try_push event).2.toList.length
          rw [htl, List.length_append, htot]
          rfl

/-- `drain_one` preserves the forwarder invariant. -/
theorem drain_one_inv (f : BoundedForwarder) (h : FwdInv f) :
    FwdInv (drain_one f).2 := by
  obtain ⟨hq, hmax, hparts, htot⟩ := h
  by_cases hz : f.queue.size = 0
  · have hpop := BoundedQueue.try_pop_empty (q := f.queue) hz
    simp only [drain_one, hpop]
    exact ⟨hq, hmax, hparts, htot⟩
  · have hpos : 0 < f.queue.size := Nat.pos_of_ne_zero hz
    obtain ⟨hhd, htl, hinv', hsz', hcap', hdc'⟩ := BoundedQueue.try_pop_ok hq hpos
    obtain ⟨e, R, hQ⟩ : ∃ e R, f.queue.toList = e :: R := by
      cases hQ : f.queue.toList with
      | nil =>
        exfalso
        have hl := BoundedQueue.toList_length f.queue
        rw [hQ] at hl
        simp at hl
        omega
      | cons e R => exact ⟨e, R, rfl⟩
    have hpop1 : (f.queue.try_pop).1 = some e := by
      rw [hhd, hQ]
      rfl
    obtain ⟨c, hfind, hc1, hcR, hparts'⟩ := QuotaParts_pop (hQ ▸ hparts)
    have hrel := release_of_find hfind hc1
    have htl' : (f.queue.try_pop).2.toList = R := by
      rw [htl, hQ]
      rfl
    have htot' : (release f.quota_tracker e.agent_id).total_in_flight = R.length := by
      rw [hrel]
      have : f.quota_tracker.total_in_flight - 1 = R.length := by
        rw [htot, hQ]
        simp
      by_cases hz' : c - 1 = 0 <;> simp only [hz', if_true, if_false] <;> exact this
    have hmax' : (release f.quota_tracker e.agent_id).max_per_agent =
        f.quota_tracker.max_per_agent := release_max _ _
    have hparts'' : QuotaParts (release f.quota_tracker e.agent_id).in_flight
        (release f.quota_tracker e.agent_id).max_per_agent
        ((f.queue.try_pop).2.toList) := by
      rw [htl', hrel]
      by_cases hz' : c - 1 = 0
      · rw [if_pos hz']
        show QuotaParts (alistEraseKey f.quota_tracker.in_flight e.agent_id)
          f.quota_tracker.max_per_agent R
        have h' := hparts'
        rw [if_pos hz'] at h'
        exact h'
      · rw [if_neg hz']
        show QuotaParts (alistUpdate f.quota_tracker.in_flight e.agent_id (c - 1))
          f.quota_tracker.max_per_agent R
        have h' := hparts'
        rw [if_neg hz'] at h'
        exact h'
    by_cases hsink : f.sink e.payload = true
    · simp only [drain_one, hpop1, if_pos hsink]
      exact ⟨hinv', le_of_le_of_eq hmax hmax'.symm, hparts'',
        htot'.trans (congrArg List.length htl'.symm)⟩
    · simp only [drain_one, hpop1, if_neg hsink]
      exact ⟨hinv', le_of_le_of_eq hmax hmax'.symm, hparts'',
        htot'.trans (congrArg List.length htl'.symm)⟩

/-- The invariant holds at construction under a positive quota. -/
theorem mk_fwd_inv (config : ForwarderConfig) (sink : List Byte → Bool)
    (hmax : 1 ≤ config.max_per_agent) :
    FwdInv (mkBoundedForwarder config sink) := by
  refine ⟨BoundedQueue.inv_make _ _, hmax, ⟨?_, ?_, ?_, ?_⟩, ?_⟩ <;>
    simp [mkBoundedForwarder, mkAgentQuotaTracker, BoundedQueue.toList,
      BoundedQueue.make, alistSum]

theorem stepFwd_max (f : BoundedForwarder) (op : FwdOp) :
    (stepFwd f op).quota_tracker.max_per_agent =
      f.quota_tracker.max_per_agent := by
  cases op with
  | forward ev =>
    show (try_forward f ev).2.quota_tracker.max_per_agent = _
    simp only [try_forward]
    by_cases hr : (try_reserve f.quota_tracker ev.agent_id).1 = false
    · rw [if_pos hr]
      exact try_reserve_max _ _
    · rw [if_neg hr]
      by_cases hp : (f.queue.try_push ev).1 = .Dropped
      · rw [if_pos hp]
        show (release (try_reserve f.quota_tracker ev.agent_id).2
          ev.agent_id).max_per_agent = _
        rw [release_max, try_reserve_max]
      · rw [if_neg hp]
        exact try_reserve_max _ _
  | drain =>
    show (drain_one f).2.quota_tracker.max_per_agent = _
    simp only [drain_one]
    cases hpop : (f.queue.try_pop).1 with
    | none => simp only [hpop]
    | some e =>
      simp only [hpop]
      by_cases hsink : f.sink e.payload = true
      · rw [if_pos hsink]
        exact release_max _ _
      · rw [if_neg hsink]
        exact release_max _ _

theorem runFwd_max (ops : List FwdOp) (f : BoundedForwarder) :
    (runFwd f ops).quota_tracker.max_per_agent =
      f.quota_tracker.max_per_agent := by
  induction ops generalizing f with
  | nil => rfl
  | cons op ops ih => rw [runFwd, ih, stepFwd_max]

theorem runFwd_inv (ops : List FwdOp) (f : BoundedForwarder) (h : FwdInv f) :
    FwdInv (runFwd f ops) := by
  induction ops generalizing f with
  | nil => exact h
  | cons op ops ih =>
    refine ih _ ?_
    cases op with
    | forward ev => exact try_forward_inv f ev h
    | drain => exact drain_one_inv f h

end Gateway

/-- C3: for every operation sequence on a `BoundedForwarder` with positive
`max_per_agent`, after each call the per-agent in-flight counts sum to the
queue size, each count is at least 1 (zero-count entries are pruned) and at
most `max_per_agent`, and the number of tracked agents is at most the
queue size. -/
theorem Gateway.C3_quota_tracks_queue
    (config : Gateway.ForwarderConfig) (sink : List Gateway.Byte → Bool)
    (ops : List Gateway.FwdOp) (hmax : 1 ≤ config.max_per_agent) :
    Gateway.alistSum
        (Gateway.runFwd (Gateway.mkBoundedForwarder config sink) ops).quota_tracker.in_flight =
      (Gateway.runFwd (Gateway.mkBoundedForwarder config sink) ops).queue.size ∧
    (∀ p ∈ (Gateway.runFwd (Gateway.mkBoundedForwarder config sink) ops).quota_tracker.in_flight,
      1 ≤ p.2 ∧ p.2 ≤ config.max_per_agent) ∧
    Gateway.tracked_agents
        (Gateway.runFwd (Gateway.mkBoundedForwarder config sink) ops).quota_tracker ≤
      (Gateway.runFwd (Gateway.mkBoundedForwarder config sink) ops).queue.size := by
  obtain ⟨hq, hmax', hparts, htot⟩ :=
    Gateway.runFwd_inv ops _ (Gateway.mk_fwd_inv config sink hmax)
  have hmaxeq :
      (Gateway.runFwd (Gateway.mkBoundedForwarder config sink) ops).quota_tracker.max_per_agent =
        config.max_per_agent := by
    rw [Gateway.runFwd_max]
    rfl
  have hlen := Gateway.BoundedQueue.toList_length
    (Gateway.runFwd (Gateway.mkBoundedForwarder config sink) ops).queue
  refine ⟨?_, ?_, ?_⟩
  · rw [hparts.2.2.2, hlen]
  · intro p hp
    have h := hparts.2.1 p hp
    exact ⟨h.1, hmaxeq ▸ h.2.1⟩
  · have h1 : Gateway.tracked_agents
        (Gateway.runFwd (Gateway.mkBoundedForwarder config sink) ops).quota_tracker ≤
        Gateway.alistSum
          (Gateway.runFwd (Gateway.mkBoundedForwarder config sink) ops).quota_tracker.in_flight :=
      Gateway.length_le_alistSum fun p hp => (hparts.2.1 p hp).1
    rw [hparts.2.2.2, hlen] at h1
    exact h1

/-- C3 witness: the invariants applied after one forward on a concrete
forwarder. -/
theorem Gateway.C3_quota_tracks_queue_witness :
    (1 ≤ (1 : Nat)) ∧
    (Gateway.alistSum
        (Gateway.runFwd (Gateway.mkBoundedForwarder ⟨2, 1⟩ fun _ => false)
          [.forward ⟨"A", .Metrics, []⟩]).quota_tracker.in_flight =
      (Gateway.runFwd (Gateway.mkBoundedForwarder ⟨2, 1⟩ fun _ => false)
          [.forward ⟨"A", .Metrics, []⟩]).queue.size ∧
    (∀ p ∈ (Gateway.runFwd (Gateway.mkBoundedForwarder ⟨2, 1⟩ fun _ => false)
          [.forward ⟨"A", .Metrics, []⟩]).quota_tracker.in_flight,
      1 ≤ p.2 ∧ p.2 ≤ (1 : Nat)) ∧
    Gateway.tracked_agents
        (Gateway.runFwd (Gateway.mkBoundedForwarder ⟨2, 1⟩ fun _ => false)
          [.forward ⟨"A", .Metrics, []⟩]).quota_tracker ≤
      (Gateway.runFwd (Gateway.mkBoundedForwarder ⟨2, 1⟩ fun _ => false)
          [.forward ⟨"A", .Metrics, []⟩]).queue.size) :=
  ⟨by norm_num,
   Gateway.C3_quota_tracks_queue ⟨2, 1⟩ (fun _ => false)
     [.forward ⟨"A", .Metrics, []⟩] (by norm_num)⟩

/-- C4 witness: the claim's concrete scenario — capacity 1, quota 10, one
successful forward for agent A, then a forward for agent B that returns
`DroppedQueueFull`; the theorem is applied to show the tracker is restored,
and `in_flight(B) = 0` is evaluated directly. -/
theorem Gateway.C4_queue_full_releases_quota_witness :
    Gateway.FwdInv ((Gateway.try_forward
        (Gateway.mkBoundedForwarder ⟨1, 10⟩ fun _ => true) ⟨"A", .Metrics, []⟩).2) ∧
    (Gateway.try_forward
        ((Gateway.try_forward (Gateway.mkBoundedForwarder ⟨1, 10⟩ fun _ => true)
            ⟨"A", .Metrics, []⟩).2) ⟨"B", .Metrics, []⟩).1 = .DroppedQueueFull ∧
    ((Gateway.try_forward
        ((Gateway.try_forward (Gateway.mkBoundedForwarder ⟨1, 10⟩ fun _ => true)
            ⟨"A", .Metrics, []⟩).2) ⟨"B", .Metrics, []⟩).2.quota_tracker =
      ((Gateway.try_forward (Gateway.mkBoundedForwarder ⟨1, 10⟩ fun _ => true)
          ⟨"A", .Metrics, []⟩).2).quota_tracker) ∧
    Gateway.in_flight_count
        (Gateway.try_forward
          ((Gateway.try_forward (Gateway.mkBoundedForwarder ⟨1, 10⟩ fun _ => true)
              ⟨"A", .Metrics, []⟩).2) ⟨"B", .Metrics, []⟩).2.quota_tracker "B" = 0 :=
  ⟨by decide, by decide,
   (Gateway.C4_queue_full_releases_quota _ ⟨"B", .Metrics, []⟩ (by decide) (by decide)).1,
   by decide⟩

/-- C8: on a forwarder whose sink always fails, `drain_one` with a
non-empty queue pops the oldest event (no re-enqueue: the remaining queue
is exactly the old tail), releases that event's agent quota (its in-flight
count drops by one), increments the sink-failure counter by exactly one,
leaves the forwarded counter unchanged, and returns `true`; on an empty
queue it returns `false` and changes nothing. -/
theorem Gateway.C8_drain_one_failing_sink (f : Gateway.BoundedForwarder)
    (hInv : Gateway.FwdInv f) (hsink : ∀ bytes, f.sink bytes = false) :
    (∀ (e : Gateway.QueuedEvent) (R : List Gateway.QueuedEvent),
      f.queue.toList = e :: R →
      (Gateway.drain_one f).1 = true ∧
      (Gateway.drain_one f).2.queue.toList = R ∧
      (Gateway.drain_one f).2.sink_failures = f.sink_failures + 1 ∧
      (Gateway.drain_one f).2.total_forwarded = f.total_forwarded ∧
      Gateway.in_flight_count (Gateway.drain_one f).2.quota_tracker e.agent_id + 1 =
        Gateway.in_flight_count f.quota_tracker e.agent_id) ∧
    (f.queue.toList = [] → Gateway.drain_one f = (false, f)) := by
  obtain ⟨hq, hmax, hparts, htot⟩ := hInv
  constructor
  · intro e R hQ
    have hpos : 0 < f.queue.size := by
      have hl := Gateway.BoundedQueue.toList_length f.queue
      rw [hQ] at hl
      simp at hl
      omega
    obtain ⟨hhd, htl, hinv', hsz', hcap', hdc'⟩ := Gateway.BoundedQueue.try_pop_ok hq hpos
    have hpop1 : (f.queue.try_pop).1 = some e := by
      rw [hhd, hQ]
      rfl
    obtain ⟨c, hfind, hc1, hcR, hparts'⟩ := Gateway.QuotaParts_pop (hQ ▸ hparts)
    have hrel := Gateway.release_of_find hfind hc1
    have hsinkE := hsink e.payload
    refine ⟨?_, ?_, ?_, ?_, ?_⟩ <;>
      simp only [Gateway.drain_one, hpop1, hsinkE, if_false]
    · rfl
    · show (f.queue.try_pop).2.toList = R
      rw [htl, hQ]
      rfl
    · rfl
    · rfl
    · show Gateway.in_flight_count
          (Gateway.release f.quota_tracker e.agent_id) e.agent_id + 1 =
        Gateway.in_flight_count f.quota_tracker e.agent_id
      rw [Gateway.in_flight_count, Gateway.in_flight_count, hrel, hfind]
      by_cases hz : c - 1 = 0
      · rw [if_pos hz]
        show (Gateway.alistFind
            (Gateway.alistEraseKey f.quota_tracker.in_flight e.agent_id)
            e.agent_id).getD 0 + 1 = (some c).getD 0
        rw [Gateway.alistFind_erase_self_of_nodup _ hparts.1]
        show 0 + 1 = c
        omega
      · rw [if_neg hz]
        show (Gateway.alistFind
            (Gateway.alistUpdate f.quota_tracker.in_flight e.agent_id (c - 1))
            e.agent_id).getD 0 + 1 = (some c).getD 0
        rw [Gateway.alistFind_update_self (c - 1) hfind]
        show c - 1 + 1 = c
        omega
  · intro hQ
    have hz : f.queue.size = 0 := by
      have hl := Gateway.BoundedQueue.toList_length f.queue
      rw [hQ] at hl
      simpa using hl.symm
    have hpop := Gateway.BoundedQueue.try_pop_empty (q := f.queue) hz
    simp only [Gateway.drain_one, hpop]

/-- C8 witness: one forwarded event against an always-failing sink, then a
drain; the theorem is applied at that concrete state. -/
theorem Gateway.C8_drain_one_failing_sink_witness :
    Gateway.FwdInv ((Gateway.try_forward
        (Gateway.mkBoundedForwarder ⟨4, 2⟩ fun _ => false) ⟨"A", .Metrics, []⟩).2) ∧
    ((Gateway.try_forward (Gateway.mkBoundedForwarder ⟨4, 2⟩ fun _ => false)
        ⟨"A", .Metrics, []⟩).2).queue.toList = [⟨"A", .Metrics, []⟩] ∧
    ((Gateway.drain_one ((Gateway.try_forward
        (Gateway.mkBoundedForwarder ⟨4, 2⟩ fun _ => false) ⟨"A", .Metrics, []⟩).2)).1 = true ∧
     (Gateway.drain_one ((Gateway.try_forward
        (Gateway.mkBoundedForwarder ⟨4, 2⟩ fun _ => false) ⟨"A", .Metrics, []⟩).2)).2.queue.toList = [] ∧
     (Gateway.drain_one ((Gateway.try_forward
        (Gateway.mkBoundedForwarder ⟨4, 2⟩ fun _ => false) ⟨"A", .Metrics, []⟩).2)).2.sink_failures =
       ((Gateway.try_forward (Gateway.mkBoundedForwarder ⟨4, 2⟩ fun _ => false)
          ⟨"A", .Metrics, []⟩).2).sink_failures + 1 ∧
     (Gateway.drain_one ((Gateway.try_forward
        (Gateway.mkBoundedForwarder ⟨4, 2⟩ fun _ => false) ⟨"A", .Metrics, []⟩).2)).2.total_forwarded =
       ((Gateway.try_forward (Gateway.mkBoundedForwarder ⟨4, 2⟩ fun _ => false)
          ⟨"A", .Metrics, []⟩).2).total_forwarded ∧
     Gateway.in_flight_count
         (Gateway.drain_one ((Gateway.try_forward
            (Gateway.mkBoundedForwarder ⟨4, 2⟩ fun _ => false) ⟨"A", .Metrics, []⟩).2)).2.quota_tracker
         (Gateway.QueuedEvent.mk "A" .Metrics []).agent_id + 1 =
       Gateway.in_flight_count
         ((Gateway.try_forward (Gateway.mkBoundedForwarder ⟨4, 2⟩ fun _ => false)
            ⟨"A", .Metrics, []⟩).2).quota_tracker
         (Gateway.QueuedEvent.mk "A" .Metrics []).agent_id) :=
  ⟨by decide, by decide,
   (Gateway.C8_drain_one_failing_sink _ (by decide) (fun _ => rfl)).1
     ⟨"A", .Metrics, []⟩ [] (by decide)⟩

namespace Gateway

/-! ## TB-3: logfmt parsing (`src/parse_log.cpp`)

The single-pass logfmt parser, embedded over `List Char` with an explicit
position.  Each C++ scanning loop advances the position by at least one
character per iteration, so calling it with fuel `input.length + 1` never
exhausts the fuel; the fuel-out arms are unreachable. -/

/-- `gateway::LogLevel`. -/
inductive LogLevel where
  | Trace
  | Debug
  | Info
  | Warn
  | Error
  | Fatal
deriving DecidableEq, Repr

/-- The `std::uint8_t` value of a level (used by the TB-4 level floor). -/
def LogLevel.toNat : LogLevel → Nat
  | .Trace => 0
  | .Debug => 1
  | .Info => 2
  | .Warn => 3
  | .Error => 4
  | .Fatal => 5

/-- `gateway::LogDropReason`. -/
inductive LogDropReason where
  | InputTooLarge
  | EmptyInput
  | TooManyFields
  | KeyTooLong
  | ValueTooLong
  | InvalidKeyChar
  | MissingEquals
  | UnterminatedQuote
  | MissingTimestamp
  | MissingLevel
  | MissingMessage
  | InvalidTimestamp
  | InvalidLevel
deriving DecidableEq, Repr

/-- `gateway::LogLimits` constants. -/
def kMaxLineBytes : Nat := 2048

def kMaxFields : Nat := 16

def kMaxKeyLen : Nat := 32

def kMaxValueLen : Nat := 1024

/-- `gateway::ParsedLog` (views modelled as character lists; `field_count`
is the length of `fields`). -/
structure ParsedLog where
  ts : Nat
  level : LogLevel
  agent_id : List Char
  msg : List Char
  fields : List (List Char × List Char)
deriving DecidableEq, Repr

/-- `input_[pos_]`; every use in the embedding sits behind the same bounds
guard as in the C++, so the default is never read. -/
def charAt (s : List Char) (i : Nat) : Char := s.getD i 'A'

/-- `LogfmtParser::is_key_start`: `[a-z_]`. -/
def is_key_start (c : Char) : Bool :=
  (decide ('a' ≤ c) && decide (c ≤ 'z')) || c == '_'

/-- `LogfmtParser::is_key_char`: `[a-z0-9_]`. -/
def is_key_char (c : Char) : Bool :=
  (decide ('a' ≤ c) && decide (c ≤ 'z')) ||
    (decide ('0' ≤ c) && decide (c ≤ '9')) || c == '_'

/-- `LogfmtParser::skip_spaces`. -/
def skip_spaces (s : List Char) : Nat → Nat → Nat
  | 0, pos => pos
  | fuel + 1, pos =>
    if pos < s.length && (charAt s pos == ' ' || charAt s pos == '\t') then
      skip_spaces s fuel (pos + 1)
    else pos

/-- The scan loop of `parse_key` (`[a-z0-9_]*` after the first char). -/
def scan_key (s : List Char) : Nat → Nat → Nat
  | 0, pos => pos
  | fuel + 1, pos =>
    if pos < s.length && is_key_char (charAt s pos) then
      scan_key s fuel (pos + 1)
    else pos

/-- `input_.substr(start, len)` as a view. -/
def substr (s : List Char) (start len : Nat) : List Char := (s.drop start).take len

/-- `LogfmtParser::parse_key`; returns the key view and the new position. -/
def parse_key (s : List Char) (pos : Nat) :
    Except LogDropReason (List Char × Nat) :=
  if pos ≥ s.length then .error .MissingEquals
  else if ¬ is_key_start (charAt s pos) then .error .InvalidKeyChar
  else
    let stop := scan_key s (s.length + 1) (pos + 1)
    .ok (substr s pos (stop - pos), stop)

/-- The scan loop of `parse_bare_value`: stop at whitespace, `"` or `=`. -/
def scan_bare (s : List Char) : Nat → Nat → Nat
  | 0, pos => pos
  | fuel + 1, pos =>
    if pos < s.length &&
        !(charAt s pos == ' ' || charAt s pos == '\t' ||
          charAt s pos == '"' || charAt s pos == '=') then
      scan_bare s fuel (pos + 1)
    else pos

/-- `LogfmtParser::parse_bare_value`. -/
def parse_bare_value (s : List Char) (pos : Nat) : List Char × Nat :=
  let stop := scan_bare s (s.length + 1) pos
  (substr s pos (stop - pos), stop)

/-- The closing-quote scan of `parse_quoted_value`. -/
def scan_quote (s : List Char) : Nat → Nat → Option Nat
  | 0, _ => none
  | fuel + 1, pos =>
    if pos < s.length then
      if charAt s pos == '"' then some pos
      else scan_quote s fuel (pos + 1)
    else none

/-- `LogfmtParser::parse_quoted_value`. -/
def parse_quoted_value (s : List Char) (pos : Nat) :
    Except LogDropReason (List Char × Nat) :=
  if pos ≥ s.length || !(charAt s pos == '"') then .error .UnterminatedQuote
  else
    let start := pos + 1
    match scan_quote s (s.length + 1) start with
    | some q => .ok (substr s start (q - start), q + 1)
    | none => .error .UnterminatedQuote

/-- `LogfmtParser::parse_value`: empty at end of line, else quoted or
bare. -/
def parse_value (s : List Char) (pos : Nat) :
    Except LogDropReason (List Char × Nat) :=
  if pos ≥ s.length then .ok ([], pos)
  else if charAt s pos == '"' then parse_quoted_value s pos
  else .ok (parse_bare_value s pos)

/-- `gateway::parse_log_level`. -/
def parse_log_level (s : List Char) : Option LogLevel :=
  if s = "trace".toList then some .Trace
  else if s = "debug".toList then some .Debug
  else if s = "info".toList then some .Info
  else if s = "warn".toList then some .Warn
  else if s = "error".toList then some .Error
  else if s = "fatal".toList then some .Fatal
  else none

/-- Decimal value of a digit string. -/
def digitsToNat (l : List Char) : Nat :=
  l.foldl (fun acc c => 10 * acc + (c.toNat - '0'.toNat)) 0

/-- `std::from_chars` into `std::uint64_t` with the parser's
`ptr == end` check: the whole view must be digits and the value must fit
in 64 bits (overflow is `result_out_of_range`, a sign is
`invalid_argument` — both rejected). -/
def parse_u64 (value : List Char) : Option Nat :=
  if value ≠ [] ∧ value.all Char.isDigit ∧
      digitsToNat value ≤ 18446744073709551615 then
    some (digitsToNat value)
  else none

/-- The mutable locals of `LogfmtParser::parse`. -/
structure LogState where
  ts : Nat
  level : LogLevel
  agent_id : List Char
  msg : List Char
  fields : List (List Char × List Char)
  has_ts : Bool
  has_level : Bool
  has_msg : Bool
deriving DecidableEq, Repr

/-- The field loop of `LogfmtParser::parse`.  Fuel-out is unreachable
(every iteration consumes at least the one key-start character). -/
def parse_fields (s : List Char) :
    Nat → Nat → LogState → Except LogDropReason LogState
  | 0, _, _ => .error .TooManyFields
  | fuel + 1, pos, st =>
    let pos := skip_spaces s (s.length + 1) pos
    if pos ≥ s.length then .ok st
    else if st.fields.length ≥ kMaxFields then .error .TooManyFields
    else
      match parse_key s pos with
      | .error e => .error e
      | .ok (key, pos) =>
        if key.length > kMaxKeyLen then .error .KeyTooLong
        else if pos ≥ s.length || !(charAt s pos == '=') then .error .MissingEquals
        else
          let pos := pos + 1
          match parse_value s pos with
          | .error e => .error e
          | .ok (value, pos) =>
            if value.length > kMaxValueLen then .error .ValueTooLong
            else
              let st := { st with fields := st.fields ++ [(key, value)] }
              if key = "ts".toList then
                match parse_u64 value with
                | none => .error .InvalidTimestamp
                | some v => parse_fields s fuel pos { st with ts := v, has_ts := true }
              else if key = "level".toList then
                match parse_log_level value with
                | none => .error .InvalidLevel
                | some lv =>
                  parse_fields s fuel pos { st with level := lv, has_level := true }
              else if key = "msg".toList then
                parse_fields s fuel pos { st with msg := value, has_msg := true }
              else if key = "agent".toList then
                parse_fields s fuel pos { st with agent_id := value }
              else
                parse_fields s fuel pos st

/-- The trailing-whitespace strip loop at the top of `parse`
(`while (!input_.empty() && back ∈ \x7b newline, CR, space, tab \x7d) drop last`),
written as a reversed `dropWhile`. -/
def stripTrailing (s : List Char) : List Char :=
  (s.reverse.dropWhile fun c =>
    c == '\n' || c == '\r' || c == ' ' || c == '\t').reverse

/-- Embedding of `gateway::parse_log` (`LogfmtParser::parse`). -/
def parse_log (s : List Char) : Except LogDropReason ParsedLog :=
  if s.length > kMaxLineBytes then .error .InputTooLarge
  else if s = [] then .error .EmptyInput
  else
    let s := stripTrailing s
    if s = [] then .error .EmptyInput
    else
      match parse_fields s (s.length + 1) 0 ⟨0, .Info, [], [], [], false, false, false⟩ with
      | .error e => .error e
      | .ok st =>
        if !st.has_ts then .error .MissingTimestamp
        else if !st.has_level then .error .MissingLevel
        else if !st.has_msg then .error .MissingMessage
        else .ok ⟨st.ts, st.level, st.agent_id, st.msg, st.fields⟩

/-! ## TB-4: log validation (`src/validate_log.cpp`) -/

/-- `gateway::TimestampWindow`; the `std::int64_t` fields are cast to
`std::uint64_t` before use and are non-negative in every configuration the
repository builds, so they are modelled as `Nat`. -/
structure TimestampWindow where
  max_age_ms : Nat
  max_future_ms : Nat
deriving DecidableEq, Repr

/-- `gateway::kDefaultTimestampWindow`. -/
def kDefaultTimestampWindow : TimestampWindow := ⟨300000, 60000⟩

/-- `gateway::LogValidationConfig`. -/
structure LogValidationConfig where
  timestamp_window : TimestampWindow
  min_level : LogLevel
  max_message_length : Nat
  truncate_oversized_message : Bool
  require_agent_id : Bool
deriving DecidableEq, Repr

/-- `gateway::kDefaultLogValidation`. -/
def kDefaultLogValidation : LogValidationConfig :=
  ⟨kDefaultTimestampWindow, .Trace, 1024, true, false⟩

/-- `gateway::LogValidationDrop`. -/
inductive LogValidationDrop where
  | TimestampTooOld
  | TimestampInFuture
  | AgentIdEmpty
  | AgentIdTooLong
  | AgentIdInvalidFormat
  | LevelBelowMinimum
  | MessageTooLong
  | MessageEmpty
deriving DecidableEq, Repr

/-- `gateway::validate_agent_id_format`
(`^[a-zA-Z][a-zA-Z0-9_-]\x7b0,63\x7d$`). -/
def validate_agent_id_format (s : List Char) : Bool :=
  if s.length < 1 || s.length > 64 then false
  else
    match s with
    | [] => false
    | c :: rest =>
      c.isAlpha && rest.all fun c' => c'.isAlpha || c'.isDigit || c' == '_' || c' == '-'

/-- `gateway::validate_timestamp_window` (the lower bound saturates at
zero). -/
def validate_timestamp_window (ts current_time_ms : Nat) (w : TimestampWindow) : Bool :=
  let min_allowed := if current_time_ms > w.max_age_ms then current_time_ms - w.max_age_ms else 0
  let max_allowed := current_time_ms + w.max_future_ms
  decide (ts ≥ min_allowed) && decide (ts ≤ max_allowed)

/-- `gateway::ValidatedLog` (the `fields` pointer is dropped; only the
count is kept). -/
structure ValidatedLog where
  agent_id : List Char
  ts : Nat
  level : LogLevel
  msg : List Char
  field_count : Nat
deriving DecidableEq, Repr

/-- Embedding of `gateway::validate_log`, its early returns flattened into
one condition chain in source order. -/
def validate_log (parsed : ParsedLog) (config : LogValidationConfig)
    (current_time_ms : Nat) : Except LogValidationDrop ValidatedLog :=
  if parsed.agent_id ≠ [] ∧ parsed.agent_id.length > 64 then
    .error .AgentIdTooLong
  else if parsed.agent_id ≠ [] ∧ ¬ validate_agent_id_format parsed.agent_id then
    .error .AgentIdInvalidFormat
  else if parsed.agent_id = [] ∧ config.require_agent_id then
    .error .AgentIdEmpty
  else if ¬ validate_timestamp_window parsed.ts current_time_ms config.timestamp_window then
    (let min_allowed :=
      if current_time_ms > config.timestamp_window.max_age_ms then
        current_time_ms - config.timestamp_window.max_age_ms
      else 0
    if parsed.ts < min_allowed then .error .TimestampTooOld
    else .error .TimestampInFuture)
  else if parsed.level.toNat < config.min_level.toNat then
    .error .LevelBelowMinimum
  else if parsed.msg = [] then
    .error .MessageEmpty
  else if parsed.msg.length > config.max_message_length ∧
      ¬ config.truncate_oversized_message then
    .error .MessageTooLong
  else
    let final_msg :=
      if parsed.msg.length > config.max_message_length then
        parsed.msg.take config.max_message_length
      else parsed.msg
    .ok ⟨parsed.agent_id, parsed.ts, parsed.level, final_msg, parsed.fields.length⟩

/-- The `msg` view of a successful parse, if any. -/
def msgValueOf (r : Except LogDropReason ParsedLog) : Option (List Char) :=
  match r with
  | .ok p => some p.msg
  | .error _ => none

end Gateway

/-- C7 counterexample: the claim says a line whose `msg` value is empty
does not produce a `ParsedLog`, but `parse_log "ts=1 level=info msg="`
succeeds with an empty `msg` view — the parser sets `has_msg` without
inspecting the value (its own test suite expects the same for
`msg=""`). -/
theorem Gateway.C7_empty_msg_counterexample :
    Gateway.msgValueOf (Gateway.parse_log ("ts=1 level=info msg=".toList)) =
      some [] := by
  decide

/-- C7 amended: `parse_log` succeeds only when a `msg` key is present, but
its value may be empty (the line `ts=1 level=info msg=` parses to a
`ParsedLog` with an empty `msg` view); the non-emptiness of `msg` is
enforced downstream at TB-4, where `validate_log` rejects any parsed log
with an empty message as `MessageEmpty` once the agent-id, timestamp and
level gates pass. -/
theorem Gateway.C7_empty_msg_rejected_at_validation :
    (Gateway.msgValueOf (Gateway.parse_log ("ts=1 level=info msg=".toList)) =
      some []) ∧
    (∀ (parsed : Gateway.ParsedLog) (config : Gateway.LogValidationConfig)
        (now : Nat),
      parsed.msg = [] →
      parsed.agent_id = [] →
      config.require_agent_id = false →
      Gateway.validate_timestamp_window parsed.ts now config.timestamp_window = true →
      config.min_level.toNat ≤ parsed.level.toNat →
      Gateway.validate_log parsed config now = .error .MessageEmpty) := by
  refine ⟨by decide, ?_⟩
  intro parsed config now hmsg hagent hreq hwin hlvl
  rw [Gateway.validate_log]
  rw [if_neg (by simp [hagent]), if_neg (by simp [hagent]),
    if_neg (by simp [hagent, hreq]), if_neg (by simp [hwin]),
    if_neg (by omega), if_pos hmsg]

/-- C7 witness: the validation clause applied to the concrete parse of
`ts=1 level=info msg=` under the default configuration at time 1. -/
theorem Gateway.C7_empty_msg_rejected_at_validation_witness :
    ((Gateway.ParsedLog.mk 1 .Info [] []
        [("ts".toList, "1".toList), ("level".toList, "info".toList),
         ("msg".toList, [])]).msg = []) ∧
    Gateway.validate_log
        (Gateway.ParsedLog.mk 1 .Info [] []
          [("ts".toList, "1".toList), ("level".toList, "info".toList),
           ("msg".toList, [])])
        Gateway.kDefaultLogValidation 1 = .error .MessageEmpty :=
  ⟨rfl,
   (Gateway.C7_empty_msg_rejected_at_validation.2
     (Gateway.ParsedLog.mk 1 .Info [] []
       [("ts".toList, "1".toList), ("level".toList, "info".toList),
        ("msg".toList, [])])
     Gateway.kDefaultLogValidation 1 rfl rfl rfl (by decide) (by decide))⟩

namespace Gateway

/-! ## TB-3: JSON metrics parsing (`src/parse_metrics.cpp`)

The hand-written single-pass JSON reader, embedded over `List Char` with
explicit position and nesting depth.  The dead helpers
`skip_value`/`skip_object`/`skip_array`/`skip_literal` (unknown fields are
rejected before they could run) are not embedded.  As in the logfmt
embedding, every loop consumes at least one character per iteration, so
fuel `input.length + 1` never runs out and the fuel-out arms are
unreachable. -/

/-- `gateway::MetricsLimits` constants. -/
def kMaxAgentIdLen : Nat := 64

def kMaxMetrics : Nat := 50

def kMaxMetricNameLen : Nat := 128

def kMaxUnitLen : Nat := 16

def kMaxTags : Nat := 8

def kMaxTagKeyLen : Nat := 64

def kMaxTagValueLen : Nat := 64

def kMaxInputBytes : Nat := 65536

def kMaxNestingDepth : Nat := 4

/-- `gateway::MetricsDropReason`. -/
inductive MetricsDropReason where
  | InputTooLarge
  | InvalidJson
  | NestingTooDeep
  | MissingRequiredField
  | AgentIdTooLong
  | AgentIdInvalidChars
  | TooManyMetrics
  | MetricNameTooLong
  | MetricMissingName
  | MetricMissingValue
  | MetricValueNotNumber
  | UnitTooLong
  | TooManyTags
  | TagKeyTooLong
  | TagValueTooLong
  | UnexpectedField
  | InvalidFieldType
deriving DecidableEq, Repr

/-- `gateway::Metric`; the `double` value is modelled as `ℚ` and
`tag_count` as the length of `tags`. -/
structure Metric where
  name : List Char
  value : ℚ
  unit : List Char
  tags : List (List Char × List Char)
deriving DecidableEq, Repr

/-- `gateway::ParsedMetrics` (`metric_count` is the length of
`metrics`). -/
structure ParsedMetrics where
  agent_id : List Char
  seq : Nat
  ts : Nat
  metrics : List Metric
deriving DecidableEq, Repr

/-- The opening-brace character, written via its code point. -/
def lbrace : Char := Char.ofNat 123

/-- The closing-brace character, written via its code point. -/
def rbrace : Char := Char.ofNat 125

/-- `JsonParser::peek` (NUL past the end). -/
def peek (s : List Char) (pos : Nat) : Char :=
  if pos < s.length then charAt s pos else '\x00'

/-- `JsonParser::expect`: consume the character if it is next. -/
def expect (s : List Char) (pos : Nat) (c : Char) : Bool × Nat :=
  if peek s pos == c then (true, pos + 1) else (false, pos)

/-- `JsonParser::skip_whitespace`. -/
def skip_ws (s : List Char) : Nat → Nat → Nat
  | 0, pos => pos
  | fuel + 1, pos =>
    if pos < s.length &&
        (charAt s pos == ' ' || charAt s pos == '\t' ||
         charAt s pos == '\n' || charAt s pos == '\r') then
      skip_ws s fuel (pos + 1)
    else pos

/-- The scan loop of `JsonParser::parse_string`: find the closing quote,
skipping one character after each backslash exactly as the C++ does. -/
def scan_string_end (s : List Char) : Nat → Nat → Option Nat
  | 0, _ => none
  | fuel + 1, pos =>
    if pos < s.length then
      if charAt s pos == '"' then some pos
      else if charAt s pos == '\\' then
        scan_string_end s fuel (if pos + 1 < s.length then pos + 2 else pos + 1)
      else scan_string_end s fuel (pos + 1)
    else none

/-- `JsonParser::parse_string`: a view into the input, `none` when the
opening quote is missing or the string is unterminated. -/
def parse_string (s : List Char) (pos : Nat) : Option (List Char × Nat) :=
  if !(peek s pos == '"') then none
  else
    let start := pos + 1
    match scan_string_end s (s.length + 1) start with
    | some stop => some (substr s start (stop - start), stop + 1)
    | none => none

/-- The digit scan shared by `parse_integer` and `parse_number`. -/
def scan_digits (s : List Char) : Nat → Nat → Nat
  | 0, pos => pos
  | fuel + 1, pos =>
    if pos < s.length && (charAt s pos).isDigit then
      scan_digits s fuel (pos + 1)
    else pos

/-- `JsonParser::parse_integer`: optional sign, at least one digit, then
`std::from_chars` into `std::int64_t` — out-of-range values fail. -/
def parse_integer (s : List Char) (pos : Nat) : Option (Int × Nat) :=
  let neg := peek s pos == '-'
  let pos1 := if neg then pos + 1 else pos
  if !(peek s pos1).isDigit then none
  else
    let stop := scan_digits s (s.length + 1) pos1
    let mag : Nat := digitsToNat (substr s pos1 (stop - pos1))
    let v : Int := if neg then -(mag : Int) else (mag : Int)
    if v < -9223372036854775808 ∨ 9223372036854775807 < v then none
    else some (v, stop)

/-- `JsonParser::parse_number`: sign, integer part, optional fraction and
exponent, converted exactly into `ℚ` (the only behaviour of the C++
`from_chars` into `double` not modelled is its out-of-range failure on
astronomically large exponents; no claim depends on metric values). -/
def parse_number (s : List Char) (pos : Nat) : Option (ℚ × Nat) :=
  let neg := peek s pos == '-'
  let pos1 := if neg then pos + 1 else pos
  if !(peek s pos1).isDigit then none
  else
    let ipEnd := scan_digits s (s.length + 1) pos1
    let ip := substr s pos1 (ipEnd - pos1)
    let fr : List Char × Nat :=
      if peek s ipEnd == '.' then
        let fEnd := scan_digits s (s.length + 1) (ipEnd + 1)
        (substr s (ipEnd + 1) (fEnd - (ipEnd + 1)), fEnd)
      else ([], ipEnd)
    let ex : Bool × Nat × Nat :=
      if peek s fr.2 == 'e' || peek s fr.2 == 'E' then
        let p2 := fr.2 + 1
        let sg : Bool × Nat :=
          if peek s p2 == '+' then (false, p2 + 1)
          else if peek s p2 == '-' then (true, p2 + 1)
          else (false, p2)
        let eEnd := scan_digits s (s.length + 1) sg.2
        (sg.1, digitsToNat (substr s sg.2 (eEnd - sg.2)), eEnd)
      else (false, 0, fr.2)
    let mant : ℚ := (digitsToNat ip : ℚ) + (digitsToNat fr.1 : ℚ) / (10 : ℚ) ^ fr.1.length
    let sv : ℚ := if neg then -mant else mant
    let v : ℚ := sv * (10 : ℚ) ^ (if ex.1 then -(ex.2.1 : Int) else (ex.2.1 : Int))
    some (v, ex.2.2)

/-- `JsonParser::validate_agent_id`: `[A-Za-z0-9_.-]+`. -/
def validate_agent_id (s : List Char) : Bool :=
  !s.isEmpty && s.all fun c => c.isAlphanum || c == '_' || c == '.' || c == '-'

/-- The loop of `JsonParser::parse_tags`. -/
def parse_tags_loop (s : List Char) :
    Nat → Nat → Metric → Except MetricsDropReason (Metric × Nat)
  | 0, _, _ => .error .InvalidJson
  | fuel + 1, pos, m =>
    if m.tags.length ≥ kMaxTags then .error .TooManyTags
    else
      let pos := skip_ws s (s.length + 1) pos
      match parse_string s pos with
      | none => .error .InvalidJson
      | some (key, pos) =>
        if key.length > kMaxTagKeyLen then .error .TagKeyTooLong
        else
          let pos := skip_ws s (s.length + 1) pos
          match expect s pos ':' with
          | (false, _) => .error .InvalidJson
          | (true, pos) =>
            let pos := skip_ws s (s.length + 1) pos
            match parse_string s pos with
            | none => .error .InvalidFieldType
            | some (val, pos) =>
              if val.length > kMaxTagValueLen then .error .TagValueTooLong
              else
                let m := { m with tags := m.tags ++ [(key, val)] }
                let pos := skip_ws s (s.length + 1) pos
                if peek s pos == rbrace then .ok (m, pos + 1)
                else
                  match expect s pos ',' with
                  | (false, _) => .error .InvalidJson
                  | (true, pos) => parse_tags_loop s fuel pos m

/-- `JsonParser::parse_tags`. -/
def parse_tags (s : List Char) (depth pos : Nat) (m : Metric) :
    Except MetricsDropReason (Metric × Nat) :=
  match expect s pos lbrace with
  | (false, _) => .error .InvalidFieldType
  | (true, pos) =>
    if depth + 1 > kMaxNestingDepth then .error .NestingTooDeep
    else
      let pos := skip_ws s (s.length + 1) pos
      if peek s pos == rbrace then .ok (m, pos + 1)
      else parse_tags_loop s (s.length + 1) pos m

/-- One key/value field inside a metric object (`parse_metric`'s
dispatch). -/
def parse_metric_field (s : List Char) (depth pos0 : Nat)
    (m : Metric) (has_name has_value : Bool) :
    Except MetricsDropReason (Metric × Bool × Bool × Nat) :=
  let pos := skip_ws s (s.length + 1) pos0
  match parse_string s pos with
  | none => .error .InvalidJson
  | some (key, pos) =>
    let pos := skip_ws s (s.length + 1) pos
    match expect s pos ':' with
    | (false, _) => .error .InvalidJson
    | (true, pos) =>
      let pos := skip_ws s (s.length + 1) pos
      if key = "n".toList then
        match parse_string s pos with
        | none => .error .InvalidFieldType
        | some (val, pos) =>
          if val.length > kMaxMetricNameLen then .error .MetricNameTooLong
          else .ok ({ m with name := val }, true, has_value, pos)
      else if key = "v".toList then
        match parse_number s pos with
        | none => .error .MetricValueNotNumber
        | some (v, pos) => .ok ({ m with value := v }, has_name, true, pos)
      else if key = "u".toList then
        match parse_string s pos with
        | none => .error .InvalidFieldType
        | some (val, pos) =>
          if val.length > kMaxUnitLen then .error .UnitTooLong
          else .ok ({ m with unit := val }, has_name, has_value, pos)
      else if key = "t".toList then
        match parse_tags s depth pos m with
        | .error e => .error e
        | .ok (m, pos) => .ok (m, has_name, has_value, pos)
      else .error .UnexpectedField

/-- The field loop of `JsonParser::parse_metric`. -/
def parse_metric_loop (s : List Char) (depth : Nat) :
    Nat → Nat → Metric → Bool → Bool →
      Except MetricsDropReason (Metric × Bool × Bool × Nat)
  | 0, _, _, _, _ => .error .InvalidJson
  | fuel + 1, pos, m, hn, hv =>
    match parse_metric_field s depth pos m hn hv with
    | .error e => .error e
    | .ok (m, hn, hv, pos) =>
      let pos := skip_ws s (s.length + 1) pos
      if peek s pos == rbrace then .ok (m, hn, hv, pos + 1)
      else
        match expect s pos ',' with
        | (false, _) => .error .InvalidJson
        | (true, pos) => parse_metric_loop s depth fuel pos m hn hv

/-- `JsonParser::parse_metric`. -/
def parse_metric (s : List Char) (depth pos : Nat) :
    Except MetricsDropReason (Metric × Nat) :=
  match expect s pos lbrace with
  | (false, _) => .error .InvalidJson
  | (true, pos) =>
    if depth + 1 > kMaxNestingDepth then .error .NestingTooDeep
    else
      let pos := skip_ws s (s.length + 1) pos
      if peek s pos == rbrace then .error .MetricMissingName
      else
        match parse_metric_loop s (depth + 1) (s.length + 1) pos ⟨[], 0, [], []⟩ false false with
        | .error e => .error e
        | .ok (m, hn, hv, pos) =>
          if !hn then .error .MetricMissingName
          else if !hv then .error .MetricMissingValue
          else .ok (m, pos)

/-- The element loop of `JsonParser::parse_metrics_array`. -/
def parse_metrics_array_loop (s : List Char) (depth : Nat) :
    Nat → Nat → List Metric → Except MetricsDropReason (List Metric × Nat)
  | 0, _, _ => .error .InvalidJson
  | fuel + 1, pos, acc =>
    if acc.length ≥ kMaxMetrics then .error .TooManyMetrics
    else
      match parse_metric s depth pos with
      | .error e => .error e
      | .ok (m, pos) =>
        let acc := acc ++ [m]
        let pos := skip_ws s (s.length + 1) pos
        if peek s pos == ']' then .ok (acc, pos + 1)
        else
          match expect s pos ',' with
          | (false, _) => .error .InvalidJson
          | (true, pos) =>
            let pos := skip_ws s (s.length + 1) pos
            parse_metrics_array_loop s depth fuel pos acc

/-- `JsonParser::parse_metrics_array`. -/
def parse_metrics_array (s : List Char) (depth pos : Nat) :
    Except MetricsDropReason (List Metric × Nat) :=
  match expect s pos '[' with
  | (false, _) => .error .InvalidFieldType
  | (true, pos) =>
    if depth + 1 > kMaxNestingDepth then .error .NestingTooDeep
    else
      let pos := skip_ws s (s.length + 1) pos
      if peek s pos == ']' then .ok ([], pos + 1)
      else parse_metrics_array_loop s (depth + 1) (s.length + 1) pos []

/-- The mutable locals of `JsonParser::parse`. -/
structure MetricsState where
  agent_id : List Char
  seq : Nat
  ts : Nat
  metrics : List Metric
  has_agent_id : Bool
  has_seq : Bool
  has_metrics : Bool
deriving DecidableEq, Repr

/-- One key/value field of the root object (`parse`'s dispatch).  The
`seq` branch is the narrowing cast the claim is about:
`result.seq = static_cast<std::uint32_t>(*val)` on the parsed
`std::int64_t`, i.e. reduction modulo 2^32; the `ts` branch likewise casts
to `std::uint64_t`. -/
def parse_root_field (s : List Char) (pos0 : Nat) (st : MetricsState) :
    Except MetricsDropReason (MetricsState × Nat) :=
  let pos := skip_ws s (s.length + 1) pos0
  match parse_string s pos with
  | none => .error .InvalidJson
  | some (key, pos) =>
    let pos := skip_ws s (s.length + 1) pos
    match expect s pos ':' with
    | (false, _) => .error .InvalidJson
    | (true, pos) =>
      let pos := skip_ws s (s.length + 1) pos
      if key = "agent_id".toList then
        match parse_string s pos with
        | none => .error .InvalidFieldType
        | some (val, pos) =>
          if val.length > kMaxAgentIdLen then .error .AgentIdTooLong
          else if !validate_agent_id val then .error .AgentIdInvalidChars
          else .ok ({ st with agent_id := val, has_agent_id := true }, pos)
      else if key = "seq".toList then
        match parse_integer s pos with
        | none => .error .InvalidFieldType
        | some (v, pos) =>
          .ok ({ st with seq := (v.emod 4294967296).toNat, has_seq := true }, pos)
      else if key = "ts".toList then
        match parse_integer s pos with
        | none => .error .InvalidFieldType
        | some (v, pos) =>
          .ok ({ st with ts := (v.emod 18446744073709551616).toNat }, pos)
      else if key = "metrics".toList then
        match parse_metrics_array s 0 pos with
        | .error e => .error e
        | .ok (ms, pos) => .ok ({ st with metrics := ms, has_metrics := true }, pos)
      else .error .UnexpectedField

/-- The root-object field loop of `JsonParser::parse`. -/
def parse_root_loop (s : List Char) :
    Nat → Nat → MetricsState → Except MetricsDropReason (MetricsState × Nat)
  | 0, _, _ => .error .InvalidJson
  | fuel + 1, pos, st =>
    match parse_root_field s pos st with
    | .error e => .error e
    | .ok (st, pos) =>
      let pos := skip_ws s (s.length + 1) pos
      if peek s pos == rbrace then .ok (st, pos + 1)
      else
        match expect s pos ',' with
        | (false, _) => .error .InvalidJson
        | (true, pos) => parse_root_loop s fuel pos st

/-- Embedding of `gateway::parse_metrics` (`JsonParser::parse`). -/
def parse_metrics (s : List Char) : Except MetricsDropReason ParsedMetrics :=
  if s.length > kMaxInputBytes then .error .InputTooLarge
  else
    let pos := skip_ws s (s.length + 1) 0
    match expect s pos lbrace with
    | (false, _) => .error .InvalidJson
    | (true, pos) =>
      let pos := skip_ws s (s.length + 1) pos
      if peek s pos == rbrace then .error .MissingRequiredField
      else
        match parse_root_loop s (s.length + 1) pos ⟨[], 0, 0, [], false, false, false⟩ with
        | .error e => .error e
        | .ok (st, _) =>
          if !(st.has_agent_id && st.has_seq && st.has_metrics) then
            .error .MissingRequiredField
          else .ok ⟨st.agent_id, st.seq, st.ts, st.metrics⟩

/-- The `seq` of a successful metrics parse, if any. -/
def seqValueOf (r : Except MetricsDropReason ParsedMetrics) : Option Nat :=
  match r with
  | .ok m => some m.seq
  | .error _ => none

end Gateway

/-- C10: `parse_metrics` accepts a syntactically valid negative `seq`
(`parse_integer` allows a leading minus and reads into `int64_t`) and
stores `static_cast<std::uint32_t>` of it, i.e. the value modulo 2^32:
the payload whose `seq` field is −1 parses successfully with
`seq = 4294967295` even though the wire schema declares `seq` as `u32`. -/
theorem Gateway.C10_negative_seq_wraps :
    Gateway.seqValueOf (Gateway.parse_metrics
        ("\x7b\"agent_id\":\"a\",\"seq\":-1,\"metrics\":[]\x7d".toList)) =
      some 4294967295 := by
  decide
